import Mathlib

/-!
# games-cpp: Divergence (box-pusher) and Slither (snake)

A shallow embedding of the game logic of `Divergence/divergence.cpp`
(`loadLevel`, `update`, `move`, `moveBox`) and of `Slither/slither.cpp`
(`update`), followed by theorems about them.

Conventions of the embedding.
* C++ `int` is `Int`; no arithmetic here comes near the limits of `int`.
* `std::vector` is `List`; reading or writing `v[i]` outside the vector is
  undefined behaviour and is modelled by `none`.
* `render` only reads the state and draws; it is not modelled.
-/

namespace Divergence

/-- The four scancodes `LEFT`, `UP`, `RIGHT`, `DOWN` that `main` passes to `update`. -/
inductive Direction where
  | LEFT
  | UP
  | RIGHT
  | DOWN
  deriving DecidableEq, Repr

/-- Source constant `const int FLOOR = 1`. -/
def FLOOR : Int := 1

/-- Source constant `const int WALL = 2`. -/
def WALL : Int := 2

/-- Source type `struct Point { int x, y; }`. -/
structure Point where
  x : Int
  y : Int
  deriving DecidableEq, Repr

/-- Source type `struct Cell { int type; bool isGoal, hasBox, onGoal; }`. -/
structure Cell where
  type : Int
  isGoal : Bool
  hasBox : Bool
  onGoal : Bool
  deriving DecidableEq, Repr

/-- Source type `struct Level`; `map` is the vector of rows. -/
structure Level where
  width : Int
  height : Int
  goals : Int
  player : Point
  map : List (List Cell)
  deriving DecidableEq, Repr

/-- Read of `level.map[p.y][p.x]`; `none` when either index is outside its vector
(a negative `int` index converts to a huge `size_t`). -/
def cellAt (map : List (List Cell)) (p : Point) : Option Cell :=
  if 0 ≤ p.y ∧ 0 ≤ p.x then
    match map[p.y.toNat]? with
    | some row => row[p.x.toNat]?
    | none => none
  else none

/-- The map with the cell at `p` replaced by `c` (unchanged when `p` is outside). -/
def setAt (map : List (List Cell)) (p : Point) (c : Cell) : List (List Cell) :=
  match map[p.y.toNat]? with
  | some row => map.set p.y.toNat (row.set p.x.toNat c)
  | none => map

/-- Write to a field of `level.map[p.y][p.x]`: the cell there becomes `f` of itself;
`none` when the cell is outside the map. -/
def writeCell (map : List (List Cell)) (p : Point) (f : Cell → Cell) :
    Option (List (List Cell)) :=
  match cellAt map p with
  | some c => some (setAt map p (f c))
  | none => none

/-- Source function `Point move(int direction, const Point &src)`. -/
def move (direction : Direction) (src : Point) : Point :=
  match direction with
  | Direction.LEFT => ⟨src.x - 1, src.y⟩
  | Direction.UP => ⟨src.x, src.y - 1⟩
  | Direction.RIGHT => ⟨src.x + 1, src.y⟩
  | Direction.DOWN => ⟨src.x, src.y + 1⟩

/-- Source function `bool moveBox(int direction, const Point &src, Level &level)`:
the returned pair is the return value and the level after the call. -/
def moveBox (direction : Direction) (src : Point) (level : Level) : Option (Bool × Level) := do
  let dest := move direction src
  let d ← cellAt level.map dest
  if d.type ≠ WALL ∧ d.hasBox = false then
    let m1 ← writeCell level.map src (fun c => { c with hasBox := false })
    let m2 ← writeCell m1 dest (fun c => { c with hasBox := true })
    -- Increment remaining goals if the box was pushed off a goal.
    let s ← cellAt m2 src
    let (m3, g3) ←
      if s.isGoal = true then
        (writeCell m2 src (fun c => { c with onGoal := false })).map (fun m => (m, level.goals + 1))
      else some (m2, level.goals)
    -- Decrement remaining goals if the box was pushed onto a goal.
    let d3 ← cellAt m3 dest
    let (m4, g4) ←
      if d3.isGoal = true then
        (writeCell m3 dest (fun c => { c with onGoal := true })).map (fun m => (m, g3 - 1))
      else some (m3, g3)
    some (true, { level with map := m4, goals := g4 })
  else
    some (false, level)

/-- Source function `bool update(int direction, Level &level)`:
the returned pair is the return value and the level after the call. -/
def update (direction : Direction) (level : Level) : Option (Bool × Level) := do
  let dest := move direction level.player
  let c ← cellAt level.map dest
  if c.type ≠ WALL then
    if c.hasBox = true then
      -- `hasBox && moveBox(direction, dest, level)`
      let (moved, level1) ← moveBox direction dest level
      if moved = true then
        let level2 := { level1 with player := dest }
        if level2.goals = 0 then some (true, level2) else some (false, level2)
      else
        -- `else if(!level.map[dest.y][dest.x].hasBox)`
        let c1 ← cellAt level1.map dest
        if c1.hasBox = false then some (false, { level1 with player := dest })
        else some (false, level1)
    else
      -- `&&` short-circuits; the `else if` reads the same cell again
      let c1 ← cellAt level.map dest
      if c1.hasBox = false then some (false, { level with player := dest })
      else some (false, level)
  else
    some (false, level)

/-- The local variables of `loadLevel` while it scans the definition string. -/
structure LoadState where
  map : List (List Cell)
  goals : Int
  player : Point
  width : Int
  height : Int
  x : Int
  deriving DecidableEq, Repr

/-- Statement `level.map[height].push_back(c)`. -/
def pushCell (st : LoadState) (c : Cell) : LoadState :=
  { st with map := List.modify (fun row => row ++ [c]) st.height.toNat st.map }

/-- One iteration of the `for` loop of `loadLevel`: the `switch` on the character,
then `x++`. -/
def loadStep (st : LoadState) (ch : Char) : LoadState :=
  let st1 : LoadState :=
    if ch = '.' then { pushCell st ⟨FLOOR, true, false, false⟩ with goals := st.goals + 1 }
    else if ch = '$' then pushCell st ⟨FLOOR, false, true, false⟩
    else if ch = '*' then pushCell st ⟨FLOOR, true, true, true⟩
    else if ch = '#' then pushCell st ⟨WALL, false, false, false⟩
    else if ch = '@' then
      pushCell { st with player := ⟨st.x, st.height⟩ } ⟨FLOOR, false, false, false⟩
    else if ch = '&' then
      { pushCell { st with player := ⟨st.x, st.height⟩ } ⟨FLOOR, true, false, false⟩ with
        goals := st.goals + 1 }
    else if ch = '|' then
      { st with
        height := st.height + 1
        width := if st.x > st.width then st.x else st.width
        x := -1
        map := st.map ++ [[]] }
    else pushCell st ⟨FLOOR, false, false, false⟩
  { st1 with x := st1.x + 1 }

/-- The state of `loadLevel` before the loop. `level.player` is not initialised by
the source; `p0` stands for whatever value it holds. -/
def loadInit (p0 : Point) : LoadState :=
  { map := [[]], goals := 0, player := p0, width := 0, height := 0, x := 0 }

/-- Source function `Level loadLevel(const std::string &def)`. The string is its list
of characters. After the loop the source computes `W_WIDTH / width` for the renderer:
with `width = 0` (no row but the last has a cell) that is a division by zero, and the
function yields no level. -/
def loadLevel (p0 : Point) (defn : List Char) : Option Level :=
  let st := defn.foldl loadStep (loadInit p0)
  if st.width = 0 then none
  else some
    { width := st.width, height := st.height + 1, goals := st.goals,
      player := st.player, map := st.map }

/-- Number of cells of the map that satisfy `P`. -/
def countCells (P : Cell → Bool) (map : List (List Cell)) : Int :=
  ((map.flatten).countP P : Int)

/-- A cell after a box has been pushed off it: `hasBox` cleared, and `onGoal` cleared
when the cell is a goal. -/
def boxOff (c : Cell) : Cell :=
  { c with hasBox := false, onGoal := if c.isGoal = true then false else c.onGoal }

/-- A cell after a box has been pushed onto it: `hasBox` set, and `onGoal` set when the
cell is a goal. -/
def boxOn (c : Cell) : Cell :=
  { c with hasBox := true, onGoal := if c.isGoal = true then true else c.onGoal }

/-- The call `update d level` pushes a box: the player's destination is a non-wall cell
with a box, and the cell one further is a non-wall cell without a box. -/
def pushes (d : Direction) (level : Level) : Bool :=
  match cellAt level.map (move d level.player),
      cellAt level.map (move d (move d level.player)) with
  | some c, some c2 =>
    decide (c.type ≠ WALL) && c.hasBox && decide (c2.type ≠ WALL) && !c2.hasBox
  | _, _ => false

/-- The call `update d level` pushes a box onto a goal cell: it pushes a box, and the
cell the box arrives on is a goal. -/
def pushesOntoGoal (d : Direction) (level : Level) : Bool :=
  match cellAt level.map (move d (move d level.player)) with
  | some c2 => pushes d level && c2.isGoal
  | none => false

/-- Sample level, the definition string `#####|#@$#.|#####`: the box stands against a
wall. -/
def levelBoxAtWall : Level :=
  { width := 5, height := 3, goals := 1, player := ⟨1, 1⟩,
    map :=
      [[⟨2, false, false, false⟩, ⟨2, false, false, false⟩, ⟨2, false, false, false⟩,
        ⟨2, false, false, false⟩, ⟨2, false, false, false⟩],
       [⟨2, false, false, false⟩, ⟨1, false, false, false⟩, ⟨1, false, true, false⟩,
        ⟨2, false, false, false⟩, ⟨1, true, false, false⟩],
       [⟨2, false, false, false⟩, ⟨2, false, false, false⟩, ⟨2, false, false, false⟩,
        ⟨2, false, false, false⟩, ⟨2, false, false, false⟩]] }

/-- Sample level, the definition string `#####|#@$.#|#####`: one box, one goal behind
it. -/
def levelOneGoal : Level :=
  { width := 5, height := 3, goals := 1, player := ⟨1, 1⟩,
    map :=
      [[⟨2, false, false, false⟩, ⟨2, false, false, false⟩, ⟨2, false, false, false⟩,
        ⟨2, false, false, false⟩, ⟨2, false, false, false⟩],
       [⟨2, false, false, false⟩, ⟨1, false, false, false⟩, ⟨1, false, true, false⟩,
        ⟨1, true, false, false⟩, ⟨2, false, false, false⟩],
       [⟨2, false, false, false⟩, ⟨2, false, false, false⟩, ⟨2, false, false, false⟩,
        ⟨2, false, false, false⟩, ⟨2, false, false, false⟩]] }

/-- Sample level, the definition string `#####|#@ *#|#####`: the only goal is covered
by the only box from the start. -/
def levelSolved : Level :=
  { width := 5, height := 3, goals := 0, player := ⟨1, 1⟩,
    map :=
      [[⟨2, false, false, false⟩, ⟨2, false, false, false⟩, ⟨2, false, false, false⟩,
        ⟨2, false, false, false⟩, ⟨2, false, false, false⟩],
       [⟨2, false, false, false⟩, ⟨1, false, false, false⟩, ⟨1, false, false, false⟩,
        ⟨1, true, true, true⟩, ⟨2, false, false, false⟩],
       [⟨2, false, false, false⟩, ⟨2, false, false, false⟩, ⟨2, false, false, false⟩,
        ⟨2, false, false, false⟩, ⟨2, false, false, false⟩]] }

/-- The rows of a definition string: the pieces between the row markers `|`. -/
def rows (defn : List Char) : List (List Char) :=
  defn.splitOn '|'

/-- The character table of the specification: `.` goal, `$` box, `*` box on goal,
`#` wall, `@` player (plain floor), `&` player on a goal, anything else plain floor. -/
def charCell (ch : Char) : Cell :=
  if ch = '.' then { type := FLOOR, isGoal := true, hasBox := false, onGoal := false }
  else if ch = '$' then { type := FLOOR, isGoal := false, hasBox := true, onGoal := false }
  else if ch = '*' then { type := FLOOR, isGoal := true, hasBox := true, onGoal := true }
  else if ch = '#' then { type := WALL, isGoal := false, hasBox := false, onGoal := false }
  else if ch = '@' then { type := FLOOR, isGoal := false, hasBox := false, onGoal := false }
  else if ch = '&' then { type := FLOOR, isGoal := true, hasBox := false, onGoal := false }
  else { type := FLOOR, isGoal := false, hasBox := false, onGoal := false }

/-- The (column, row) of every `@` and `&` of one row, left to right; `y` is the row's
index and `x` the column of its first character. -/
def rowPlayers (y : Int) : Int → List Char → List Point
  | _, [] => []
  | x, ch :: rest =>
    if ch = '@' ∨ ch = '&' then ⟨x, y⟩ :: rowPlayers y (x + 1) rest
    else rowPlayers y (x + 1) rest

/-- The (column, row) of every `@` and `&` of the rows, in reading order; `y` is the
index of the first row. -/
def playerCells : Int → List (List Char) → List Point
  | _, [] => []
  | y, row :: rest => rowPlayers y 0 row ++ playerCells (y + 1) rest

/-- The largest length among the rows, 0 when there is none. -/
def maxLen : List (List Char) → Int
  | [] => 0
  | row :: rest => max (row.length : Int) (maxLen rest)

/-- Number of goal-bearing characters `.`, `*`, `&` of a definition string. -/
def goalBearing (defn : List Char) : Int :=
  ((defn.count '.' + defn.count '*' + defn.count '&' : Nat) : Int)

/-- Number of characters `.` and `&` of a definition string: the goals no box stands
on. -/
def openGoals (defn : List Char) : Int :=
  ((defn.count '.' + defn.count '&' : Nat) : Int)

/-- Number of box characters `$` and `*` of a definition string. -/
def boxChars (defn : List Char) : Int :=
  ((defn.count '$' + defn.count '*' : Nat) : Int)

/-- The rows of cells when the scan of `loadLevel` continues a row `cur` already begun:
the first piece extends `cur`, every further piece is a row of its own. -/
def glueRows (cur : List Cell) : List (List Char) → List (List Cell)
  | [] => [cur]
  | row :: rest => (cur ++ row.map charCell) :: rest.map (List.map charCell)

/-- The player characters when the scan continues in row `y` at column `x`. -/
def playersFrom (y x : Int) : List (List Char) → List Point
  | [] => []
  | row :: rest => rowPlayers y x row ++ playerCells (y + 1) rest

/-- The variable `width` when the scan continues at column `x` with `width = w`: every
row that a marker closes is compared with it. -/
def widthFrom (w x : Int) : List (List Char) → Int
  | [] => w
  | [_] => w
  | row :: rest => max w (max (x + (row.length : Int)) (maxLen rest.dropLast))

/-- The state of the scan of `loadLevel` after the rows `pre` have been closed and the
cells `cur` of the row in progress have been pushed. -/
def scanState (pre : List (List Cell)) (cur : List Cell) (g : Int) (pl : Point) (w : Int) :
    LoadState :=
  { map := pre ++ [cur], goals := g, player := pl, width := w,
    height := (pre.length : Int), x := (cur.length : Int) }

/-- The definition string `#####|#@$#.|#####` of `levelBoxAtWall`. -/
def defBoxAtWall : List Char :=
  ['#', '#', '#', '#', '#', '|', '#', '@', '$', '#', '.', '|', '#', '#', '#', '#', '#']

/-- The definition string `#####|#@ *#|#####` of `levelSolved`. -/
def defSolved : List Char :=
  ['#', '#', '#', '#', '#', '|', '#', '@', ' ', '*', '#', '|', '#', '#', '#', '#', '#']

/-- The definition string `#####|#@$.#|#####` of `levelOneGoal`. -/
def defOneGoal : List Char :=
  ['#', '#', '#', '#', '#', '|', '#', '@', '$', '.', '#', '|', '#', '#', '#', '#', '#']

/-- The level `levelOneGoal` after the box has been pushed right, onto the goal. -/
def levelOneGoalDone : Level :=
  { width := 5, height := 3, goals := 0, player := ⟨2, 1⟩,
    map :=
      [[⟨2, false, false, false⟩, ⟨2, false, false, false⟩, ⟨2, false, false, false⟩,
        ⟨2, false, false, false⟩, ⟨2, false, false, false⟩],
       [⟨2, false, false, false⟩, ⟨1, false, false, false⟩, ⟨1, false, false, false⟩,
        ⟨1, true, true, true⟩, ⟨2, false, false, false⟩],
       [⟨2, false, false, false⟩, ⟨2, false, false, false⟩, ⟨2, false, false, false⟩,
        ⟨2, false, false, false⟩, ⟨2, false, false, false⟩]] }

/-- The goals counter is the number of goal cells without a box, and `onGoal` marks
exactly the goal cells with a box. -/
def GoalsInv (level : Level) : Prop :=
  level.goals = countCells (fun c => c.isGoal && !c.hasBox) level.map
    ∧ ∀ p c, cellAt level.map p = some c →
        (c.onGoal = true ↔ (c.isGoal = true ∧ c.hasBox = true))

/-- The map has exactly one cell with a box and exactly one goal cell. -/
def OneBoxOneGoal (level : Level) : Prop :=
  countCells (fun c => c.hasBox) level.map = 1 ∧ countCells (fun c => c.isGoal) level.map = 1

/-- Every non-wall cell of the map has its four orthogonal neighbours in the map: the
playfield is enclosed by walls. -/
def Enclosed (map : List (List Cell)) : Prop :=
  ∀ p c, cellAt map p = some c → c.type ≠ WALL →
    ∀ d : Direction, (cellAt map (move d p)).isSome = true

/-- The cell by cell test of `Enclosed`: every cell of every row is a wall or has its four
neighbours in the map. -/
def enclosedCheck (map : List (List Cell)) : Bool :=
  (List.range map.length).all fun y =>
    (List.range ((map[y]?).getD []).length).all fun x =>
      match cellAt map ⟨(x : Int), (y : Int)⟩ with
      | some c =>
        decide (c.type = WALL) ||
          [Direction.LEFT, Direction.UP, Direction.RIGHT, Direction.DOWN].all
            (fun d => (cellAt map (move d ⟨(x : Int), (y : Int)⟩)).isSome)
      | none => true

/-- The player's coordinate indexes an existing non-wall cell that holds no box. -/
def PlayerOk (level : Level) : Prop :=
  ∃ c, cellAt level.map level.player = some c ∧ c.type ≠ WALL ∧ c.hasBox = false

/-- Every cell of the map that has a cell below it lies in
`[0, width) x [0, height)`. -/
def Bounded (level : Level) : Prop :=
  ∀ p, (cellAt level.map p).isSome = true →
    (cellAt level.map (move Direction.DOWN p)).isSome = true →
    0 ≤ p.x ∧ p.x < level.width ∧ 0 ≤ p.y ∧ p.y < level.height

/-- A sequence of calls of `update` on the same level, each on the state the previous
one left; `none` as soon as one of them reads outside the map. -/
def runUpdates : List Direction → Level → Option Level
  | [], level => some level
  | d :: ds, level =>
    match update d level with
    | some r => runUpdates ds r.2
    | none => none

end Divergence

namespace Slither

/-- The four scancodes `LEFT`, `UP`, `RIGHT`, `DOWN` that `main` stores in `direction`. -/
inductive Direction where
  | LEFT
  | UP
  | RIGHT
  | DOWN
  deriving DecidableEq, Repr

/-- Source type `struct Point { int x, y; }`. -/
structure Point where
  x : Int
  y : Int
  deriving DecidableEq, Repr

/-- Source constant `const int B_WIDTH = 20`. -/
def B_WIDTH : Int := 20

/-- Source constant `const int B_HEIGHT = 20`. -/
def B_HEIGHT : Int := 20

/-- The global variables `direction`, `length`, `body` and `food` that `update` uses. -/
structure Snake where
  direction : Direction
  length : Int
  body : List Point
  food : Point
  deriving DecidableEq, Repr

/-- Loop `while(body.size() > length) body.pop_back();`. -/
def trim (length : Nat) (body : List Point) : List Point :=
  if length < body.length then trim length body.dropLast else body
termination_by body.length
decreasing_by
  simp only [List.length_dropLast]
  omega

/-- The head after the `switch(direction)` and the wrap-around `if` chain of `update`. -/
def newHead (direction : Direction) (head : Point) : Point :=
  let nx : Int :=
    match direction with
    | Direction.LEFT => head.x - 1
    | Direction.RIGHT => head.x + 1
    | _ => head.x
  let ny : Int :=
    match direction with
    | Direction.UP => head.y - 1
    | Direction.DOWN => head.y + 1
    | _ => head.y
  if nx ≥ B_WIDTH then ⟨nx - B_WIDTH, ny⟩
  else if nx < 0 then ⟨nx + B_WIDTH, ny⟩
  else if ny ≥ B_HEIGHT then ⟨nx, ny - B_HEIGHT⟩
  else if ny < 0 then ⟨nx, ny + B_HEIGHT⟩
  else ⟨nx, ny⟩

/-- The globals after `body.insert(body.begin(), Point{nx, ny})` and the food test, where
`head` is the inserted point (it is `body[0]` then): on food `length++` and the food
moves to `(r1 % B_WIDTH, r2 % B_HEIGHT)`, where `r1`, `r2` are the values the two calls
of `rand()` return; otherwise `body.pop_back()`. -/
def feed (s : Snake) (head : Point) (r1 r2 : Nat) : Snake :=
  let body1 := head :: s.body
  if head.x = s.food.x ∧ head.y = s.food.y then
    { s with
      length := s.length + 1
      body := body1
      food := ⟨(r1 : Int) % B_WIDTH, (r2 : Int) % B_HEIGHT⟩ }
  else
    { s with body := body1.dropLast }

/-- The search of the loop `for(int i = 2; i < body.size(); i++)` for an `i` with
`body[0].x == body[i].x && body[0].y == body[i].y`. -/
def selfHit (body : List Point) : Bool :=
  match body with
  | b0 :: _ :: rest => rest.any (fun p => decide (b0.x = p.x ∧ b0.y = p.y))
  | _ => false

/-- Source function `void update()` on the globals; `r1`, `r2` are the values the two
calls of `rand()` return when the food is eaten. `body[0]` of an empty body is
undefined: `none`. -/
def update (s : Snake) (r1 r2 : Nat) : Option Snake :=
  match s.body with
  | [] => none
  | head :: _ =>
    let s1 := feed s (newHead s.direction head) r1 r2
    if selfHit s1.body = true then
      -- Set length to 3 and trim body.
      some { s1 with length := 3, body := trim 3 s1.body }
    else some s1

/-- The step `(dx, dy)` of a direction: left and right change `x`, up and down change
`y`, up being the direction of decreasing `y`. -/
def delta (direction : Direction) : Int × Int :=
  match direction with
  | Direction.LEFT => (-1, 0)
  | Direction.UP => (0, -1)
  | Direction.RIGHT => (1, 0)
  | Direction.DOWN => (0, 1)

/-- Sample state: the initial snake at the left edge, heading left; the food is away. -/
def snakeAtEdge : Snake :=
  { direction := Direction.LEFT, length := 3, body := [⟨0, 10⟩, ⟨1, 10⟩, ⟨2, 10⟩],
    food := ⟨5, 5⟩ }

/-- Sample state: a snake of length 4 about to eat the food right of its head. -/
def snakeBeforeFood : Snake :=
  { direction := Direction.RIGHT, length := 4,
    body := [⟨10, 10⟩, ⟨9, 10⟩, ⟨8, 10⟩, ⟨7, 10⟩], food := ⟨11, 10⟩ }

/-- Sample state: a snake of length 4 turned back onto its own neck; the food is
away. -/
def snakeReversed : Snake :=
  { direction := Direction.LEFT, length := 4,
    body := [⟨10, 10⟩, ⟨9, 10⟩, ⟨8, 10⟩, ⟨7, 10⟩], food := ⟨0, 0⟩ }

/-- Sample state: as `snakeReversed`, with the food on the snake's neck. -/
def snakeReversedOnFood : Snake :=
  { direction := Direction.LEFT, length := 4,
    body := [⟨10, 10⟩, ⟨9, 10⟩, ⟨8, 10⟩, ⟨7, 10⟩], food := ⟨9, 10⟩ }

/-- Sample state: a snake of length 4 coiled in a 2 by 2 square, its head about to
enter the cell its tail is leaving; the food is away. -/
def snakeCoiled : Snake :=
  { direction := Direction.LEFT, length := 4,
    body := [⟨1, 0⟩, ⟨1, 1⟩, ⟨0, 1⟩, ⟨0, 0⟩], food := ⟨5, 5⟩ }

/-- Sample state: a snake of length 5 running into its own side; the food is away. -/
def snakeHook : Snake :=
  { direction := Direction.LEFT, length := 5,
    body := [⟨1, 0⟩, ⟨1, 1⟩, ⟨0, 1⟩, ⟨0, 0⟩, ⟨0, 19⟩], food := ⟨5, 5⟩ }

end Slither

namespace Divergence

theorem cellAt_some_nonneg {m : List (List Cell)} {p : Point} {c : Cell}
    (h : cellAt m p = some c) : 0 ≤ p.y ∧ 0 ≤ p.x := by
  unfold cellAt at h
  by_contra hn
  simp [hn] at h

theorem cellAt_setAt_self {m : List (List Cell)} {p : Point} {c : Cell} (c1 : Cell)
    (h : cellAt m p = some c) : cellAt (setAt m p c1) p = some c1 := by
  have hp := cellAt_some_nonneg h
  unfold cellAt at h
  unfold cellAt setAt
  simp only [hp, and_self, if_true] at h ⊢
  cases hrow : m[p.y.toNat]? with
  | none => simp [hrow] at h
  | some row =>
    simp only [hrow] at h ⊢
    have hy : p.y.toNat < m.length := by
      rcases List.getElem?_eq_some.mp hrow with ⟨hy, _⟩
      exact hy
    have hx : p.x.toNat < row.length := by
      rcases List.getElem?_eq_some.mp h with ⟨hx, _⟩
      exact hx
    simp [List.getElem?_set, hy, hx]

theorem cellAt_setAt_ne {m : List (List Cell)} {p q : Point} (c1 : Cell)
    (hp : 0 ≤ p.y ∧ 0 ≤ p.x) (hne : q ≠ p) : cellAt (setAt m p c1) q = cellAt m q := by
  unfold cellAt setAt
  by_cases hq : 0 ≤ q.y ∧ 0 ≤ q.x
  · simp only [hq, and_self, if_true]
    cases hrow : m[p.y.toNat]? with
    | none => rfl
    | some row =>
      simp only []
      by_cases hy : p.y.toNat = q.y.toNat
      · have hx : p.x.toNat ≠ q.x.toNat := by
          intro hx
          apply hne
          have h1 : p.y = q.y := by omega
          have h2 : p.x = q.x := by omega
          cases p; cases q; simp_all
        have hy2 : p.y.toNat < m.length := by
          rcases List.getElem?_eq_some.mp hrow with ⟨hy2, _⟩
          exact hy2
        rw [← hy, hrow]
        simp [List.getElem?_set, hy2, hx]
      · simp [List.getElem?_set_ne hy]
  · simp [hq]

end Divergence

namespace Divergence

theorem countP_set_int (P : Cell → Bool) (l : List Cell) (i : Nat) (c c1 : Cell)
    (h : l[i]? = some c) :
    ((l.set i c1).countP P : Int)
      = (l.countP P : Int) - (if P c = true then 1 else 0) + (if P c1 = true then 1 else 0) := by
  induction l generalizing i with
  | nil => simp at h
  | cons a l ih =>
    cases i with
    | zero =>
      simp only [List.getElem?_cons_zero, Option.some.injEq] at h
      subst h
      simp only [List.set_cons_zero, List.countP_cons]
      push_cast
      split_ifs <;> simp
    | succ i =>
      simp only [List.getElem?_cons_succ] at h
      simp only [List.set_cons_succ, List.countP_cons]
      push_cast
      rw [ih i h]
      ring

theorem countP_flatten_set_int (P : Cell → Bool) (m : List (List Cell)) (y : Nat)
    (row row1 : List Cell) (h : m[y]? = some row) :
    (((m.set y row1).flatten).countP P : Int)
      = ((m.flatten).countP P : Int) - (row.countP P : Int) + (row1.countP P : Int) := by
  induction m generalizing y with
  | nil => simp at h
  | cons a m ih =>
    cases y with
    | zero =>
      simp only [List.getElem?_cons_zero, Option.some.injEq] at h
      subst h
      simp only [List.set_cons_zero, List.flatten_cons, List.countP_append]
      push_cast
      ring
    | succ y =>
      simp only [List.getElem?_cons_succ] at h
      simp only [List.set_cons_succ, List.flatten_cons, List.countP_append]
      push_cast
      rw [ih y h]
      ring

theorem countP_setAt (P : Cell → Bool) {m : List (List Cell)} {p : Point} {c : Cell}
    (c1 : Cell) (h : cellAt m p = some c) :
    (((setAt m p c1).flatten).countP P : Int)
      = ((m.flatten).countP P : Int) - (if P c = true then 1 else 0)
          + (if P c1 = true then 1 else 0) := by
  have hp := cellAt_some_nonneg h
  unfold cellAt at h
  unfold setAt
  simp only [hp, and_self, if_true] at h
  cases hrow : m[p.y.toNat]? with
  | none => simp [hrow] at h
  | some row =>
    simp only [hrow] at h ⊢
    rw [countP_flatten_set_int P m _ row _ hrow, countP_set_int P row _ c c1 h]
    ring

end Divergence

namespace Divergence

theorem move_ne (d : Direction) (p : Point) : move d p ≠ p := by
  intro h
  cases d <;> cases p <;> simp [move] at h

theorem writeCell_some {m : List (List Cell)} {p : Point} {c : Cell} (f : Cell → Cell)
    (h : cellAt m p = some c) : writeCell m p f = some (setAt m p (f c)) := by
  simp [writeCell, h]

theorem countCells_setAt (P : Cell → Bool) {m : List (List Cell)} {p : Point} {c : Cell}
    (c1 : Cell) (h : cellAt m p = some c) :
    countCells P (setAt m p c1)
      = countCells P m - (if P c = true then 1 else 0) + (if P c1 = true then 1 else 0) :=
  countP_setAt P c1 h

theorem moveBox_blocked {d : Direction} {src : Point} {level : Level} {c2 : Cell}
    (hd : cellAt level.map (move d src) = some c2)
    (hb : c2.type = WALL ∨ c2.hasBox = true) :
    moveBox d src level = some (false, level) := by
  unfold moveBox
  rcases hb with hb | hb <;> simp [hd, hb]

theorem moveBox_push {d : Direction} {src : Point} {level : Level} {s c2 : Cell}
    (hs : cellAt level.map src = some s)
    (hd : cellAt level.map (move d src) = some c2)
    (hw : c2.type ≠ WALL) (hb : c2.hasBox = false) :
    ∃ m4 : List (List Cell),
      moveBox d src level
          = some (true, { level with
              map := m4
              goals := level.goals + (if s.isGoal = true then 1 else 0)
                        - (if c2.isGoal = true then 1 else 0) })
        ∧ cellAt m4 src = some (boxOff s)
        ∧ cellAt m4 (move d src) = some (boxOn c2)
        ∧ (∀ q, q ≠ src → q ≠ move d src → cellAt m4 q = cellAt level.map q)
        ∧ (∀ P : Cell → Bool, countCells P m4
            = countCells P level.map - (if P s = true then 1 else 0)
                - (if P c2 = true then 1 else 0)
                + (if P (boxOff s) = true then 1 else 0)
                + (if P (boxOn c2) = true then 1 else 0)) := by
  have hne : move d src ≠ src := move_ne d src
  have hsn := cellAt_some_nonneg hs
  have hdn := cellAt_some_nonneg hd
  -- first write: `hasBox = false` on the old cell
  let s1 : Cell := { s with hasBox := false }
  let m1 := setAt level.map src s1
  have w1 : writeCell level.map src (fun c => { c with hasBox := false }) = some m1 :=
    writeCell_some _ hs
  have r1d : cellAt m1 (move d src) = some c2 := by
    rw [cellAt_setAt_ne s1 hsn hne]; exact hd
  have r1s : cellAt m1 src = some s1 := cellAt_setAt_self s1 hs
  -- second write: `hasBox = true` on the new cell
  let d1 : Cell := { c2 with hasBox := true }
  let m2 := setAt m1 (move d src) d1
  have w2 : writeCell m1 (move d src) (fun c => { c with hasBox := true }) = some m2 :=
    writeCell_some _ r1d
  have r2s : cellAt m2 src = some s1 := by
    rw [cellAt_setAt_ne d1 hdn (Ne.symm hne)]; exact r1s
  have r2d : cellAt m2 (move d src) = some d1 := cellAt_setAt_self d1 r1d
  have c1 : ∀ P : Cell → Bool, countCells P m1
      = countCells P level.map - (if P s = true then 1 else 0)
          + (if P s1 = true then 1 else 0) := fun P => countCells_setAt P s1 hs
  have c2' : ∀ P : Cell → Bool, countCells P m2
      = countCells P m1 - (if P c2 = true then 1 else 0)
          + (if P d1 = true then 1 else 0) := fun P => countCells_setAt P d1 r1d
  have o2 : ∀ q, q ≠ src → q ≠ move d src → cellAt m2 q = cellAt level.map q := by
    intro q h1 h2
    rw [cellAt_setAt_ne d1 hdn h2, cellAt_setAt_ne s1 hsn h1]
  -- third write, when the old cell is a goal
  let s3 : Cell := { s1 with onGoal := false }
  let m3 := setAt m2 src s3
  have w3 : writeCell m2 src (fun c => { c with onGoal := false }) = some m3 :=
    writeCell_some _ r2s
  have r3s : cellAt m3 src = some s3 := cellAt_setAt_self s3 r2s
  have r3d : cellAt m3 (move d src) = some d1 := by
    rw [cellAt_setAt_ne s3 hsn hne]; exact r2d
  have c3 : ∀ P : Cell → Bool, countCells P m3
      = countCells P m2 - (if P s1 = true then 1 else 0)
          + (if P s3 = true then 1 else 0) := fun P => countCells_setAt P s3 r2s
  have o3 : ∀ q, q ≠ src → q ≠ move d src → cellAt m3 q = cellAt level.map q := by
    intro q h1 h2
    rw [cellAt_setAt_ne s3 hsn h1, o2 q h1 h2]
  -- fourth write, when the new cell is a goal
  let d4 : Cell := { d1 with onGoal := true }
  by_cases gs : s.isGoal = true
  · by_cases gd : c2.isGoal = true
    · refine ⟨setAt m3 (move d src) d4, ?_, ?_, ?_, ?_, ?_⟩
      · have w4 : writeCell m3 (move d src) (fun c => { c with onGoal := true })
            = some (setAt m3 (move d src) d4) := writeCell_some _ r3d
        unfold moveBox
        simp [hd, hw, hb, w1, w2, r2s, s1, gs, w3, r3d, d1, gd, w4]
      · rw [cellAt_setAt_ne d4 hdn (Ne.symm hne), r3s]; simp [s3, s1, boxOff, gs]
      · rw [cellAt_setAt_self d4 r3d]; simp [d4, d1, boxOn, gd]
      · intro q h1 h2
        rw [cellAt_setAt_ne d4 hdn h2, o3 q h1 h2]
      · intro P
        rw [countCells_setAt P d4 r3d, c3 P, c2' P, c1 P]
        have e1 : boxOff s = s3 := by simp [s3, s1, boxOff, gs]
        have e2 : boxOn c2 = d4 := by simp [d4, d1, boxOn, gd]
        rw [e1, e2]; ring
    · refine ⟨m3, ?_, ?_, ?_, ?_, ?_⟩
      · unfold moveBox
        simp [hd, hw, hb, w1, w2, r2s, s1, gs, w3, r3d, d1, gd]
      · rw [r3s]; simp [s3, s1, boxOff, gs]
      · rw [r3d]; simp [d1, boxOn, gd]
      · exact o3
      · intro P
        rw [c3 P, c2' P, c1 P]
        have e1 : boxOff s = s3 := by simp [s3, s1, boxOff, gs]
        have e2 : boxOn c2 = d1 := by simp [d1, boxOn, gd]
        rw [e1, e2]; ring
  · by_cases gd : c2.isGoal = true
    · refine ⟨setAt m2 (move d src) d4, ?_, ?_, ?_, ?_, ?_⟩
      · have w4 : writeCell m2 (move d src) (fun c => { c with onGoal := true })
            = some (setAt m2 (move d src) d4) := writeCell_some _ r2d
        unfold moveBox
        simp [hd, hw, hb, w1, w2, r2s, s1, gs, r2d, d1, gd, w4]
      · rw [cellAt_setAt_ne d4 hdn (Ne.symm hne), r2s]; simp [s1, boxOff, gs]
      · rw [cellAt_setAt_self d4 r2d]; simp [d4, d1, boxOn, gd]
      · intro q h1 h2
        rw [cellAt_setAt_ne d4 hdn h2, o2 q h1 h2]
      · intro P
        rw [countCells_setAt P d4 r2d, c2' P, c1 P]
        have e1 : boxOff s = s1 := by simp [s1, boxOff, gs]
        have e2 : boxOn c2 = d4 := by simp [d4, d1, boxOn, gd]
        rw [e1, e2]; ring
    · refine ⟨m2, ?_, ?_, ?_, ?_, ?_⟩
      · unfold moveBox
        simp [hd, hw, hb, w1, w2, r2s, s1, gs, r2d, d1, gd]
      · rw [r2s]; simp [s1, boxOff, gs]
      · rw [r2d]; simp [d1, boxOn, gd]
      · exact o2
      · intro P
        rw [c2' P, c1 P]
        have e1 : boxOff s = s1 := by simp [s1, boxOff, gs]
        have e2 : boxOn c2 = d1 := by simp [d1, boxOn, gd]
        rw [e1, e2]; ring

end Divergence

namespace Divergence

theorem update_wall {d : Direction} {level : Level} {c : Cell}
    (hc : cellAt level.map (move d level.player) = some c) (hw : c.type = WALL) :
    update d level = some (false, level) := by
  unfold update
  simp [hc, hw]

theorem update_step {d : Direction} {level : Level} {c : Cell}
    (hc : cellAt level.map (move d level.player) = some c) (hw : c.type ≠ WALL)
    (hb : c.hasBox = false) :
    update d level = some (false, { level with player := move d level.player }) := by
  unfold update
  simp [hc, hw, hb]

theorem update_blocked {d : Direction} {level : Level} {c c2 : Cell}
    (hc : cellAt level.map (move d level.player) = some c)
    (hb : c.hasBox = true)
    (hc2 : cellAt level.map (move d (move d level.player)) = some c2)
    (hrej : c2.type = WALL ∨ c2.hasBox = true) :
    update d level = some (false, level) := by
  unfold update
  simp [hc, hb, moveBox_blocked hc2 hrej]

theorem update_outside {d : Direction} {level : Level} {c : Cell}
    (hc : cellAt level.map (move d level.player) = some c) (hw : c.type ≠ WALL)
    (hb : c.hasBox = true)
    (hc2 : cellAt level.map (move d (move d level.player)) = none) :
    update d level = none := by
  have hm : moveBox d (move d level.player) level = none := by
    unfold moveBox
    simp [hc2]
  unfold update
  simp [hc, hb, hm]
  exact hw

theorem update_push {d : Direction} {level : Level} {c c2 : Cell}
    (hc : cellAt level.map (move d level.player) = some c) (hw : c.type ≠ WALL)
    (hb : c.hasBox = true)
    (hc2 : cellAt level.map (move d (move d level.player)) = some c2)
    (hw2 : c2.type ≠ WALL) (hb2 : c2.hasBox = false) :
    ∃ m4 : List (List Cell),
      update d level
          = some (decide (level.goals + (if c.isGoal = true then 1 else 0)
                        - (if c2.isGoal = true then 1 else 0) = 0),
              { level with
                map := m4
                player := move d level.player
                goals := level.goals + (if c.isGoal = true then 1 else 0)
                          - (if c2.isGoal = true then 1 else 0) })
        ∧ cellAt m4 (move d level.player) = some (boxOff c)
        ∧ cellAt m4 (move d (move d level.player)) = some (boxOn c2)
        ∧ (∀ q, q ≠ move d level.player → q ≠ move d (move d level.player) →
            cellAt m4 q = cellAt level.map q)
        ∧ (∀ P : Cell → Bool, countCells P m4
            = countCells P level.map - (if P c = true then 1 else 0)
                - (if P c2 = true then 1 else 0)
                + (if P (boxOff c) = true then 1 else 0)
                + (if P (boxOn c2) = true then 1 else 0)) := by
  obtain ⟨m4, hm, h1, h2, h3, h4⟩ := @moveBox_push d (move d level.player) level c c2 hc hc2 hw2 hb2
  refine ⟨m4, ?_, h1, h2, h3, h4⟩
  unfold update
  simp only [hc, hm]
  by_cases hg : level.goals + (if c.isGoal = true then 1 else 0)
      - (if c2.isGoal = true then 1 else 0) = 0
  · simp [hw, hb, hg]
  · simp [hw, hb, hg]

/-- C1. A rejected move: when the player's destination cell is a wall, or it holds a box
and the cell one further in the same direction is a wall or holds a box, `update`
returns false and the level after the call is the level before it (player, every cell,
goals counter). -/
theorem update_rejected_move (d : Direction) (level : Level) (c : Cell)
    (hc : cellAt level.map (move d level.player) = some c)
    (hrej : c.type = WALL ∨
      (c.hasBox = true ∧ ∃ c2, cellAt level.map (move d (move d level.player)) = some c2 ∧
        (c2.type = WALL ∨ c2.hasBox = true))) :
    update d level = some (false, level) := by
  by_cases hw : c.type = WALL
  · exact update_wall hc hw
  · rcases hrej with h | ⟨hb, c2, hc2, h2⟩
    · exact absurd h hw
    · exact update_blocked hc hb hc2 h2

theorem update_rejected_move_witness :
    update Direction.RIGHT levelBoxAtWall = some (false, levelBoxAtWall) :=
  update_rejected_move Direction.RIGHT levelBoxAtWall ⟨1, false, true, false⟩ (by decide)
    (Or.inr ⟨rfl, ⟨2, false, false, false⟩, by decide, Or.inl rfl⟩)

end Divergence

namespace Divergence

theorem pushes_eq_true {d : Direction} {level : Level} {c c2 : Cell}
    (hc : cellAt level.map (move d level.player) = some c)
    (hc2 : cellAt level.map (move d (move d level.player)) = some c2) :
    pushes d level = true ↔
      (c.type ≠ WALL ∧ c.hasBox = true ∧ c2.type ≠ WALL ∧ c2.hasBox = false) := by
  unfold pushes
  simp [hc, hc2, and_assoc]

theorem pushes_second_none {d : Direction} {level : Level}
    (hc2 : cellAt level.map (move d (move d level.player)) = none) :
    pushes d level = false := by
  unfold pushes
  cases h : cellAt level.map (move d level.player) <;> simp [hc2]

/-- Every returning call of `update` is one of two kinds: no box is pushed, the result is
false and only the player may have moved; or a box is pushed from the player's
destination to the cell beyond it. -/
theorem update_cases {d : Direction} {level : Level} {r : Bool × Level}
    (h : update d level = some r) :
    (pushes d level = false ∧ r.1 = false ∧
      (r.2 = level ∨ r.2 = { level with player := move d level.player }))
    ∨ (pushes d level = true ∧ ∃ (c c2 : Cell) (m4 : List (List Cell)),
        cellAt level.map (move d level.player) = some c ∧ c.type ≠ WALL ∧ c.hasBox = true
        ∧ cellAt level.map (move d (move d level.player)) = some c2
        ∧ c2.type ≠ WALL ∧ c2.hasBox = false
        ∧ r = (decide (level.goals + (if c.isGoal = true then 1 else 0)
                        - (if c2.isGoal = true then 1 else 0) = 0),
              { level with
                map := m4
                player := move d level.player
                goals := level.goals + (if c.isGoal = true then 1 else 0)
                          - (if c2.isGoal = true then 1 else 0) })
        ∧ cellAt m4 (move d level.player) = some (boxOff c)
        ∧ cellAt m4 (move d (move d level.player)) = some (boxOn c2)
        ∧ (∀ q, q ≠ move d level.player → q ≠ move d (move d level.player) →
            cellAt m4 q = cellAt level.map q)
        ∧ (∀ P : Cell → Bool, countCells P m4
            = countCells P level.map - (if P c = true then 1 else 0)
                - (if P c2 = true then 1 else 0)
                + (if P (boxOff c) = true then 1 else 0)
                + (if P (boxOn c2) = true then 1 else 0))) := by
  cases hc : cellAt level.map (move d level.player) with
  | none =>
    unfold update at h
    simp [hc] at h
  | some c =>
    by_cases hw : c.type = WALL
    · left
      rw [update_wall hc hw] at h
      cases h
      refine ⟨?_, rfl, Or.inl rfl⟩
      cases hc2 : cellAt level.map (move d (move d level.player)) with
      | none => exact pushes_second_none hc2
      | some c2 =>
        have := pushes_eq_true hc hc2
        cases hp : pushes d level
        · rfl
        · exact absurd hw (this.mp hp).1
    · cases hb : c.hasBox with
      | false =>
        left
        rw [update_step hc hw hb] at h
        cases h
        refine ⟨?_, rfl, Or.inr rfl⟩
        cases hc2 : cellAt level.map (move d (move d level.player)) with
        | none => exact pushes_second_none hc2
        | some c2 =>
          have := pushes_eq_true hc hc2
          cases hp : pushes d level
          · rfl
          · have h2 := (this.mp hp).2.1
            rw [hb] at h2
            cases h2
      | true =>
        cases hc2 : cellAt level.map (move d (move d level.player)) with
        | none =>
          rw [update_outside hc hw hb hc2] at h
          cases h
        | some c2 =>
          by_cases hrej : c2.type = WALL ∨ c2.hasBox = true
          · left
            rw [update_blocked hc hb hc2 hrej] at h
            cases h
            refine ⟨?_, rfl, Or.inl rfl⟩
            have := pushes_eq_true hc hc2
            cases hp : pushes d level
            · rfl
            · obtain ⟨_, _, h3, h4⟩ := this.mp hp
              rcases hrej with h5 | h5
              · exact absurd h5 h3
              · rw [h4] at h5
                cases h5
          · right
            have hw2 : c2.type ≠ WALL := fun h5 => hrej (Or.inl h5)
            have hb2 : c2.hasBox = false := by
              cases h6 : c2.hasBox
              · rfl
              · exact absurd (Or.inr h6) hrej
            obtain ⟨m4, hu, h1, h2, h3, h4⟩ := update_push hc hw hb hc2 hw2 hb2
            rw [hu] at h
            refine ⟨(pushes_eq_true hc hc2).mpr ⟨hw, hb, hw2, hb2⟩, c, c2, m4, rfl, hw, hb,
              rfl, hw2, hb2, ?_, h1, h2, h3, h4⟩
            exact (Option.some.inj h).symm

/-- C2. A successful push: when the player's destination is a non-wall cell with a box and
the cell one further is a non-wall cell without a box, `update` returns, the player stands
on the box's old cell, the old cell has `hasBox` cleared (and `onGoal` cleared if it is a
goal), the further cell has `hasBox` set (and `onGoal` set if it is a goal), every other
cell is as before, and `goals` has grown by one if the old cell is a goal and shrunk by
one if the new cell is a goal. -/
theorem update_successful_push (d : Direction) (level : Level) (c c2 : Cell)
    (hc : cellAt level.map (move d level.player) = some c)
    (hw : c.type ≠ WALL) (hb : c.hasBox = true)
    (hc2 : cellAt level.map (move d (move d level.player)) = some c2)
    (hw2 : c2.type ≠ WALL) (hb2 : c2.hasBox = false) :
    ∃ r : Bool × Level, update d level = some r
      ∧ r.2.player = move d level.player
      ∧ cellAt r.2.map (move d level.player)
          = some { c with hasBox := false, onGoal := if c.isGoal = true then false else c.onGoal }
      ∧ cellAt r.2.map (move d (move d level.player))
          = some { c2 with hasBox := true, onGoal := if c2.isGoal = true then true else c2.onGoal }
      ∧ (∀ q, q ≠ move d level.player → q ≠ move d (move d level.player) →
          cellAt r.2.map q = cellAt level.map q)
      ∧ r.2.goals = level.goals + (if c.isGoal = true then 1 else 0)
                      - (if c2.isGoal = true then 1 else 0)
      ∧ r.2.width = level.width ∧ r.2.height = level.height := by
  obtain ⟨m4, hu, h1, h2, h3, _⟩ := update_push hc hw hb hc2 hw2 hb2
  exact ⟨_, hu, rfl, h1, h2, h3, rfl, rfl, rfl⟩

theorem update_successful_push_witness :
    ∃ r : Bool × Level, update Direction.RIGHT levelOneGoal = some r
      ∧ r.2.player = ⟨2, 1⟩
      ∧ cellAt r.2.map ⟨2, 1⟩ = some ⟨1, false, false, false⟩
      ∧ cellAt r.2.map ⟨3, 1⟩ = some ⟨1, true, true, true⟩
      ∧ (∀ q, q ≠ (⟨2, 1⟩ : Point) → q ≠ (⟨3, 1⟩ : Point) →
          cellAt r.2.map q = cellAt levelOneGoal.map q)
      ∧ r.2.goals = 0
      ∧ r.2.width = 5 ∧ r.2.height = 3 :=
  update_successful_push Direction.RIGHT levelOneGoal ⟨1, false, true, false⟩
    ⟨1, true, false, false⟩ (by decide) (by decide) rfl (by decide) (by decide) rfl

/-- C4, as stated, fails: on the level `#####|#@ *#|#####`, whose goals counter is 0, a
step to the right onto empty floor returns false although `goals` is 0 after the call. -/
theorem update_return_counterexample :
    ∃ r : Bool × Level, update Direction.RIGHT levelSolved = some r
      ∧ r.1 = false ∧ r.2.goals = 0 :=
  ⟨(false, { levelSolved with player := ⟨2, 1⟩ }), by decide, rfl, rfl⟩

/-- C4, amended. `update` returns true exactly when the call pushes a box and `goals` is 0
after the call; in particular a true result implies `goals == 0`, and the wall, rejected
push and plain move branches return false whatever `goals` is. -/
theorem update_true_iff (d : Direction) (level : Level) (r : Bool × Level)
    (h : update d level = some r) :
    r.1 = true ↔ (pushes d level = true ∧ r.2.goals = 0) := by
  rcases update_cases h with ⟨hp, hr, _⟩ | ⟨hp, c, c2, m4, _, _, _, _, _, _, hr, _⟩
  · simp [hp, hr]
  · subst hr
    simp [hp]

theorem update_true_iff_witness :
    (true = true ↔ (pushes Direction.RIGHT levelOneGoal = true ∧ (0 : Int) = 0)) :=
  update_true_iff Direction.RIGHT levelOneGoal
    (true, { levelOneGoal with
      player := ⟨2, 1⟩, goals := 0
      map := [[⟨2, false, false, false⟩, ⟨2, false, false, false⟩, ⟨2, false, false, false⟩,
               ⟨2, false, false, false⟩, ⟨2, false, false, false⟩],
              [⟨2, false, false, false⟩, ⟨1, false, false, false⟩, ⟨1, false, false, false⟩,
               ⟨1, true, true, true⟩, ⟨2, false, false, false⟩],
              [⟨2, false, false, false⟩, ⟨2, false, false, false⟩, ⟨2, false, false, false⟩,
               ⟨2, false, false, false⟩, ⟨2, false, false, false⟩]] })
    (by decide)

end Divergence

namespace Divergence

theorem rows_ne_nil (cs : List Char) : rows cs ≠ [] := by
  unfold rows List.splitOn
  exact List.splitOnP_ne_nil _ _

theorem rows_nil : rows [] = [[]] := by
  simp [rows, List.splitOn]

theorem rows_cons_marker (cs : List Char) : rows ('|' :: cs) = [] :: rows cs := by
  unfold rows List.splitOn
  rw [List.splitOnP_cons]
  simp

theorem rows_cons_other (c : Char) (cs : List Char) (hc : c ≠ '|') :
    rows (c :: cs) = (rows cs).modifyHead (fun r => c :: r) := by
  unfold rows List.splitOn
  rw [List.splitOnP_cons]
  simp [hc]

theorem modify_length_append (f : List Cell → List Cell) (pre : List (List Cell))
    (cur : List Cell) : List.modify f pre.length (pre ++ [cur]) = pre ++ [f cur] := by
  induction pre with
  | nil => simp
  | cons a pre ih => simp [ih]

theorem loadStep_marker (pre : List (List Cell)) (cur : List Cell) (g : Int) (pl : Point)
    (w : Int) :
    loadStep (scanState pre cur g pl w) '|'
      = scanState (pre ++ [cur]) [] g pl (max w (cur.length : Int)) := by
  have hm : (if (cur.length : Int) > w then (cur.length : Int) else w)
      = max w (cur.length : Int) := by
    split_ifs with h
    · exact (max_eq_right (le_of_lt h)).symm
    · exact (max_eq_left (not_lt.mp h)).symm
  simp [loadStep, scanState, hm]

theorem loadStep_other (pre : List (List Cell)) (cur : List Cell) (g : Int) (pl : Point)
    (w : Int) (c : Char) (hc : c ≠ '|') :
    loadStep (scanState pre cur g pl w) c
      = scanState pre (cur ++ [charCell c])
          (g + (if c = '.' ∨ c = '&' then 1 else 0))
          (if c = '@' ∨ c = '&' then ⟨(cur.length : Int), (pre.length : Int)⟩ else pl) w := by
  unfold loadStep
  by_cases h1 : c = '.'
  · subst h1; simp [scanState, pushCell, charCell, modify_length_append]
  by_cases h2 : c = '$'
  · subst h2; simp [scanState, pushCell, charCell, modify_length_append]
  by_cases h3 : c = '*'
  · subst h3; simp [scanState, pushCell, charCell, modify_length_append]
  by_cases h4 : c = '#'
  · subst h4; simp [scanState, pushCell, charCell, modify_length_append]
  by_cases h5 : c = '@'
  · subst h5; simp [scanState, pushCell, charCell, modify_length_append]
  by_cases h6 : c = '&'
  · subst h6; simp [scanState, pushCell, charCell, modify_length_append]
  simp [scanState, pushCell, charCell, modify_length_append, h1, h2, h3, h4, h5, h6, hc]

theorem openGoals_cons (c : Char) (cs : List Char) :
    openGoals (c :: cs) = openGoals cs + (if c = '.' ∨ c = '&' then 1 else 0) := by
  unfold openGoals
  simp only [List.count_cons]
  by_cases h1 : c = '.'
  · subst h1; simp; ring
  · by_cases h2 : c = '&'
    · subst h2; simp; ring
    · simp [h1, h2]

theorem maxLen_nonneg (rs : List (List Char)) : 0 ≤ maxLen rs := by
  cases rs with
  | nil => simp [maxLen]
  | cons r rs => simp [maxLen]

theorem glueRows_nil (rs : List (List Char)) (h : rs ≠ []) :
    glueRows [] rs = rs.map (List.map charCell) := by
  cases rs with
  | nil => exact absurd rfl h
  | cons r rs => simp [glueRows]

theorem playersFrom_zero (y : Int) (rs : List (List Char)) :
    playersFrom y 0 rs = playerCells y rs := by
  cases rs <;> simp [playersFrom, playerCells]

theorem foldl_loadStep (cs : List Char) :
    ∀ (pre : List (List Cell)) (cur : List Cell) (g : Int) (pl : Point) (w : Int),
      (cs.foldl loadStep (scanState pre cur g pl w)).map = pre ++ glueRows cur (rows cs)
      ∧ (cs.foldl loadStep (scanState pre cur g pl w)).goals = g + openGoals cs
      ∧ (cs.foldl loadStep (scanState pre cur g pl w)).player
          = ((playersFrom (pre.length : Int) (cur.length : Int) (rows cs)).getLast?).getD pl
      ∧ (cs.foldl loadStep (scanState pre cur g pl w)).width
          = widthFrom w (cur.length : Int) (rows cs)
      ∧ (cs.foldl loadStep (scanState pre cur g pl w)).height
          = (pre.length : Int) + ((rows cs).length : Int) - 1 := by
  induction cs with
  | nil =>
    intro pre cur g pl w
    simp [rows_nil, scanState, glueRows, openGoals, playersFrom, rowPlayers, playerCells,
      widthFrom]
  | cons c cs ih =>
    intro pre cur g pl w
    rw [List.foldl_cons]
    obtain ⟨r0, rest, hR⟩ : ∃ r0 rest, rows cs = r0 :: rest := by
      cases h : rows cs with
      | nil => exact absurd h (rows_ne_nil cs)
      | cons r0 rest => exact ⟨r0, rest, rfl⟩
    by_cases hc : c = '|'
    · subst hc
      rw [loadStep_marker, rows_cons_marker]
      obtain ⟨h1, h2, h3, h4, h5⟩ := ih (pre ++ [cur]) [] g pl (max w (cur.length : Int))
      refine ⟨?_, ?_, ?_, ?_, ?_⟩
      · rw [h1, glueRows_nil _ (rows_ne_nil cs)]
        simp [glueRows]
      · rw [h2, openGoals_cons]; simp
      · rw [h3]
        simp only [List.length_nil, Nat.cast_zero]
        rw [playersFrom_zero]
        simp [playersFrom, rowPlayers]
      · rw [h4, hR]
        cases rest with
        | nil => simp [widthFrom, maxLen]
        | cons r1 rest =>
          simp only [widthFrom, List.length_nil, Nat.cast_zero, zero_add, List.length_cons,
            add_zero, maxLen]
          rw [max_assoc]
      · rw [h5]; simp; ring
    · rw [loadStep_other _ _ _ _ _ _ hc, rows_cons_other _ _ hc, hR]
      obtain ⟨h1, h2, h3, h4, h5⟩ := ih pre (cur ++ [charCell c])
        (g + (if c = '.' ∨ c = '&' then 1 else 0))
        (if c = '@' ∨ c = '&' then ⟨(cur.length : Int), (pre.length : Int)⟩ else pl) w
      rw [hR] at h1 h3 h4 h5
      refine ⟨?_, ?_, ?_, ?_, ?_⟩
      · rw [h1]; simp [glueRows]
      · rw [h2, openGoals_cons]; ring
      · rw [h3]
        simp only [List.modifyHead_cons, playersFrom, rowPlayers, List.length_append,
          List.length_singleton, Nat.cast_add, Nat.cast_one]
        by_cases hp : c = '@' ∨ c = '&'
        · simp only [hp, if_true, List.cons_append]
          rw [List.getLast?_cons]
          simp
        · simp only [hp, if_false]
      · rw [h4]
        cases rest with
        | nil => simp [widthFrom]
        | cons r1 rest =>
          simp only [List.modifyHead_cons, widthFrom, List.length_append,
            List.length_singleton, Nat.cast_add, Nat.cast_one, List.length_cons]
          congr 2
          simp
          ring
      · rw [h5]; simp

theorem widthFrom_zero (rs : List (List Char)) : widthFrom 0 0 rs = maxLen rs.dropLast := by
  cases rs with
  | nil => simp [widthFrom, maxLen]
  | cons r rest =>
    cases rest with
    | nil => simp [widthFrom, maxLen]
    | cons r1 rest =>
      simp only [widthFrom, zero_add]
      rw [List.dropLast_cons_of_ne_nil (List.cons_ne_nil _ _)]
      simp only [maxLen]
      apply max_eq_right
      simp

/-- The result of `loadLevel` in closed form. -/
theorem loadLevel_eq (p0 : Point) (defn : List Char) :
    loadLevel p0 defn
      = if maxLen (rows defn).dropLast = 0 then none
        else some
          { width := maxLen (rows defn).dropLast
            height := ((rows defn).length : Int)
            goals := openGoals defn
            player := ((playerCells 0 (rows defn)).getLast?).getD p0
            map := (rows defn).map (List.map charCell) } := by
  have hinit : loadInit p0 = scanState [] [] 0 p0 0 := rfl
  obtain ⟨h1, h2, h3, h4, h5⟩ := foldl_loadStep defn [] [] 0 p0 0
  unfold loadLevel
  simp only [hinit, h1, h2, h3, h4, h5]
  simp only [List.length_nil, Nat.cast_zero, widthFrom_zero, playersFrom_zero,
    glueRows_nil _ (rows_ne_nil defn), List.nil_append, zero_add, sub_add_cancel]

end Divergence

namespace Divergence

theorem loadLevel_defBoxAtWall (p0 : Point) :
    loadLevel p0 defBoxAtWall = some levelBoxAtWall := by
  rfl

theorem loadLevel_defSolved (p0 : Point) : loadLevel p0 defSolved = some levelSolved := by
  rfl

theorem loadLevel_defOneGoal (p0 : Point) : loadLevel p0 defOneGoal = some levelOneGoal := by
  rfl

/-- When no row but the last has a cell, `width` is 0 and `loadLevel` yields no level. -/
theorem loadLevel_none (p0 : Point) (defn : List Char)
    (hw : maxLen (rows defn).dropLast = 0) : loadLevel p0 defn = none := by
  rw [loadLevel_eq, if_pos hw]

theorem rows_flatten (cs : List Char) :
    (rows cs).flatten = cs.filter (fun ch => decide (ch ≠ '|')) := by
  induction cs with
  | nil => simp [rows_nil]
  | cons c cs ih =>
    by_cases hc : c = '|'
    · subst hc
      rw [rows_cons_marker]
      simp [ih]
    · rw [rows_cons_other c cs hc]
      cases hR : rows cs with
      | nil => exact absurd hR (rows_ne_nil cs)
      | cons r0 rest =>
        rw [hR] at ih
        simp only [List.modifyHead_cons, List.flatten_cons, List.cons_append]
        rw [List.filter_cons_of_pos (by simpa using hc)]
        rw [← ih]
        simp

theorem countCells_rows (P : Cell → Bool) (cs : List Char) :
    countCells P ((rows cs).map (List.map charCell))
      = (((cs.filter (fun ch => decide (ch ≠ '|'))).countP (fun ch => P (charCell ch)) : Nat) : Int) := by
  unfold countCells
  rw [← rows_flatten, ← List.map_flatten, List.countP_map]
  rfl

theorem countP_uncovered_chars (cs : List Char) :
    (((cs.filter (fun ch => decide (ch ≠ '|'))).countP
        (fun ch => (charCell ch).isGoal && !(charCell ch).hasBox) : Nat) : Int)
      = openGoals cs := by
  induction cs with
  | nil => simp [openGoals]
  | cons c cs ih =>
    rw [openGoals_cons, ← ih]
    by_cases h7 : c = '|'
    · subst h7; simp
    rw [List.filter_cons_of_pos (by simpa using h7), List.countP_cons]
    by_cases h1 : c = '.'
    · subst h1; simp [charCell]
    by_cases h2 : c = '$'
    · subst h2; simp [charCell]
    by_cases h3 : c = '*'
    · subst h3; simp [charCell]
    by_cases h4 : c = '#'
    · subst h4; simp [charCell]
    by_cases h5 : c = '@'
    · subst h5; simp [charCell]
    by_cases h6 : c = '&'
    · subst h6; simp [charCell]
    simp [charCell, h1, h2, h3, h4, h5, h6]

theorem charCell_onGoal (ch : Char) :
    (charCell ch).onGoal = true ↔ ((charCell ch).isGoal = true ∧ (charCell ch).hasBox = true) := by
  unfold charCell
  split_ifs <;> simp

theorem cellAt_mem {m : List (List Cell)} {p : Point} {c : Cell}
    (h : cellAt m p = some c) : ∃ row ∈ m, c ∈ row := by
  have hp := cellAt_some_nonneg h
  unfold cellAt at h
  simp only [hp, and_self, if_true] at h
  cases hrow : m[p.y.toNat]? with
  | none => simp [hrow] at h
  | some row =>
    simp only [hrow] at h
    exact ⟨row, List.getElem?_mem hrow, List.getElem?_mem h⟩

theorem countCells_pos {P : Cell → Bool} {m : List (List Cell)} {p : Point} {c : Cell}
    (h : cellAt m p = some c) (hP : P c = true) : 1 ≤ countCells P m := by
  obtain ⟨row, hr, hc⟩ := cellAt_mem h
  unfold countCells
  have : 0 < (m.flatten).countP P :=
    List.countP_pos_iff.mpr ⟨c, List.mem_flatten.mpr ⟨row, hr, hc⟩, hP⟩
  omega

theorem countCells_nonneg (P : Cell → Bool) (m : List (List Cell)) : 0 ≤ countCells P m := by
  unfold countCells
  omega

theorem countP_split (P Q : Cell → Bool) (l : List Cell) :
    l.countP P = l.countP (fun c => P c && Q c) + l.countP (fun c => P c && !Q c) := by
  induction l with
  | nil => simp
  | cons a l ih =>
    simp only [List.countP_cons, ih]
    cases P a <;> cases Q a <;> simp <;> omega

theorem countCells_split (P Q : Cell → Bool) (m : List (List Cell)) :
    countCells P m
      = countCells (fun c => P c && Q c) m + countCells (fun c => P c && !Q c) m := by
  unfold countCells
  rw [countP_split P Q]
  push_cast
  rfl


/-- C5, as stated, fails: the definition string `#####|#@ *#|#####` has one goal-bearing
character, the `*`, and `loadLevel` returns a level whose `goals` is 0. -/
theorem loadLevel_goals_counterexample :
    ∃ level : Level, loadLevel ⟨0, 0⟩ defSolved = some level ∧ level.goals = 0
      ∧ goalBearing defSolved = 1 :=
  ⟨levelSolved, by decide, rfl, by decide⟩

/-- C5, amended. For every definition string with a non-empty row before the last,
`loadLevel` returns a level whose `goals` is the number of occurrences of `.` and `&`
in the string: a `*`, a goal already covered by a box, is not counted. -/
theorem loadLevel_goals (p0 : Point) (defn : List Char)
    (hw : maxLen (rows defn).dropLast ≠ 0) :
    ∃ level : Level, loadLevel p0 defn = some level ∧ level.goals = openGoals defn := by
  rw [loadLevel_eq, if_neg hw]
  exact ⟨_, rfl, rfl⟩

theorem loadLevel_goals_witness :
    ∃ level : Level, loadLevel ⟨0, 0⟩ defOneGoal = some level
      ∧ level.goals = openGoals defOneGoal :=
  loadLevel_goals ⟨0, 0⟩ defOneGoal (by decide)

/-- C6. For every definition string with a non-empty row before the last, `loadLevel`
returns a level whose map has one row per row of the string, the cells of a row being
the cells the character table gives for its characters, in order (so the cells of the
map, read row by row, are those of the non-marker characters of the string); `height` is
the number of rows; and the player is at the (column, row) of the last `@` or `&` of the
string (`level.player` keeps its initial value `p0` when there is none). -/
theorem loadLevel_mapping (p0 : Point) (defn : List Char)
    (hw : maxLen (rows defn).dropLast ≠ 0) :
    ∃ level : Level, loadLevel p0 defn = some level
      ∧ level.map = (rows defn).map (List.map charCell)
      ∧ level.map.flatten = (defn.filter (fun ch => decide (ch ≠ '|'))).map charCell
      ∧ level.height = ((rows defn).length : Int)
      ∧ level.player = ((playerCells 0 (rows defn)).getLast?).getD p0 := by
  rw [loadLevel_eq, if_neg hw]
  refine ⟨_, rfl, rfl, ?_, rfl, rfl⟩
  simp only []
  rw [← rows_flatten, List.map_flatten]

theorem loadLevel_mapping_witness :
    ∃ level : Level, loadLevel ⟨0, 0⟩ defOneGoal = some level
      ∧ level.map = (rows defOneGoal).map (List.map charCell)
      ∧ level.map.flatten
          = (defOneGoal.filter (fun ch => decide (ch ≠ '|'))).map charCell
      ∧ level.height = 3
      ∧ level.player = ⟨1, 1⟩ :=
  loadLevel_mapping ⟨0, 0⟩ defOneGoal (by decide)

end Divergence

namespace Divergence

theorem goalsInv_load {p0 : Point} {defn : List Char} {level : Level}
    (h : loadLevel p0 defn = some level) : GoalsInv level := by
  rw [loadLevel_eq] at h
  split_ifs at h with hw
  cases h
  refine ⟨?_, ?_⟩
  · simp only []
    rw [countCells_rows, countP_uncovered_chars]
  · intro p c hc
    obtain ⟨row, hr, hcr⟩ := cellAt_mem hc
    simp only [List.mem_map] at hr
    obtain ⟨r, _, rfl⟩ := hr
    obtain ⟨ch, _, rfl⟩ := List.mem_map.mp hcr
    exact charCell_onGoal ch

theorem goalsInv_update {d : Direction} {level : Level} {r : Bool × Level}
    (hinv : GoalsInv level) (h : update d level = some r) : GoalsInv r.2 := by
  rcases update_cases h with ⟨_, _, hr | hr⟩ |
    ⟨_, c, c2, m4, hc, _, hb, hc2, _, hb2, hr, h1, h2, h3, h4⟩
  · rw [hr]; exact hinv
  · rw [hr]; exact hinv
  · subst hr
    obtain ⟨hg, ho⟩ := hinv
    refine ⟨?_, ?_⟩
    · simp only []
      rw [h4, hg]
      simp [boxOff, boxOn, hb, hb2]
      ring
    · intro q cq hq
      simp only [] at hq
      by_cases e1 : q = move d level.player
      · subst e1
        rw [h1] at hq
        cases hq
        have := ho _ _ hc
        by_cases hg1 : c.isGoal = true
        · simp [boxOff, hg1]
        · simp only [boxOff, hg1, if_false]
          simp only [Bool.not_eq_true] at hg1
          simp [hg1] at this ⊢
          exact this
      · by_cases e2 : q = move d (move d level.player)
        · subst e2
          rw [h2] at hq
          cases hq
          have := ho _ _ hc2
          by_cases hg2 : c2.isGoal = true
          · simp [boxOn, hg2]
          · simp only [boxOn, hg2, if_false]
            simp only [Bool.not_eq_true] at hg2
            simp [hg2] at this ⊢
            exact this
        · rw [h3 q e1 e2] at hq
          exact ho q cq hq

theorem goalsInv_run {ds : List Direction} {level0 level : Level}
    (hinv : GoalsInv level0) (h : runUpdates ds level0 = some level) : GoalsInv level := by
  induction ds generalizing level0 with
  | nil =>
    simp only [runUpdates, Option.some.injEq] at h
    subst h
    exact hinv
  | cons d ds ih =>
    simp only [runUpdates] at h
    cases hu : update d level0 with
    | none => simp [hu] at h
    | some r =>
      simp only [hu] at h
      exact ih (goalsInv_update hinv hu) h

theorem countP_box_chars (cs : List Char) :
    (((cs.filter (fun ch => decide (ch ≠ '|'))).countP
        (fun ch => (charCell ch).hasBox) : Nat) : Int) = boxChars cs := by
  induction cs with
  | nil => simp [boxChars]
  | cons c cs ih =>
    have hcons : boxChars (c :: cs) = boxChars cs + (if c = '$' ∨ c = '*' then 1 else 0) := by
      unfold boxChars
      simp only [List.count_cons]
      by_cases h1 : c = '$'
      · subst h1; simp; ring
      · by_cases h2 : c = '*'
        · subst h2; simp; ring
        · simp [h1, h2]
    rw [hcons, ← ih]
    by_cases h7 : c = '|'
    · subst h7; simp
    rw [List.filter_cons_of_pos (by simpa using h7), List.countP_cons]
    by_cases h1 : c = '.'
    · subst h1; simp [charCell]
    by_cases h2 : c = '$'
    · subst h2; simp [charCell]
    by_cases h3 : c = '*'
    · subst h3; simp [charCell]
    by_cases h4 : c = '#'
    · subst h4; simp [charCell]
    by_cases h5 : c = '@'
    · subst h5; simp [charCell]
    by_cases h6 : c = '&'
    · subst h6; simp [charCell]
    simp [charCell, h1, h2, h3, h4, h5, h6]

theorem countP_goal_chars (cs : List Char) :
    (((cs.filter (fun ch => decide (ch ≠ '|'))).countP
        (fun ch => (charCell ch).isGoal) : Nat) : Int) = goalBearing cs := by
  induction cs with
  | nil => simp [goalBearing]
  | cons c cs ih =>
    have hcons : goalBearing (c :: cs)
        = goalBearing cs + (if c = '.' ∨ c = '*' ∨ c = '&' then 1 else 0) := by
      unfold goalBearing
      simp only [List.count_cons]
      by_cases h1 : c = '.'
      · subst h1; simp; ring
      · by_cases h2 : c = '*'
        · subst h2; simp; ring
        · by_cases h3 : c = '&'
          · subst h3; simp; ring
          · simp [h1, h2, h3]
    rw [hcons, ← ih]
    by_cases h7 : c = '|'
    · subst h7; simp
    rw [List.filter_cons_of_pos (by simpa using h7), List.countP_cons]
    by_cases h1 : c = '.'
    · subst h1; simp [charCell]
    by_cases h2 : c = '$'
    · subst h2; simp [charCell]
    by_cases h3 : c = '*'
    · subst h3; simp [charCell]
    by_cases h4 : c = '#'
    · subst h4; simp [charCell]
    by_cases h5 : c = '@'
    · subst h5; simp [charCell]
    by_cases h6 : c = '&'
    · subst h6; simp [charCell]
    simp [charCell, h1, h2, h3, h4, h5, h6]

theorem oneBox_load {p0 : Point} {defn : List Char} {level : Level}
    (h : loadLevel p0 defn = some level) (hg : goalBearing defn = 1)
    (hb : boxChars defn = 1) : OneBoxOneGoal level := by
  rw [loadLevel_eq] at h
  split_ifs at h with hw
  cases h
  refine ⟨?_, ?_⟩
  · simp only []
    rw [countCells_rows, countP_box_chars, hb]
  · simp only []
    rw [countCells_rows, countP_goal_chars, hg]

theorem oneBox_update {d : Direction} {level : Level} {r : Bool × Level}
    (hinv : OneBoxOneGoal level) (h : update d level = some r) : OneBoxOneGoal r.2 := by
  rcases update_cases h with ⟨_, _, hr | hr⟩ |
    ⟨_, c, c2, m4, hc, _, hb, hc2, _, hb2, hr, h1, h2, h3, h4⟩
  · rw [hr]; exact hinv
  · rw [hr]; exact hinv
  · subst hr
    obtain ⟨hbx, hgl⟩ := hinv
    refine ⟨?_, ?_⟩
    · simp only []
      rw [h4, hbx]
      simp [boxOff, boxOn, hb, hb2]
    · simp only []
      rw [h4, hgl]
      simp only [boxOff, boxOn]
      ring

theorem oneBox_run {ds : List Direction} {level0 level : Level}
    (hinv : OneBoxOneGoal level0) (h : runUpdates ds level0 = some level) :
    OneBoxOneGoal level := by
  induction ds generalizing level0 with
  | nil =>
    simp only [runUpdates, Option.some.injEq] at h
    subst h
    exact hinv
  | cons d ds ih =>
    simp only [runUpdates] at h
    cases hu : update d level0 with
    | none => simp [hu] at h
    | some r =>
      simp only [hu] at h
      exact ih (oneBox_update hinv hu) h

theorem pushesOntoGoal_eq {d : Direction} {level : Level} {c2 : Cell}
    (hc2 : cellAt level.map (move d (move d level.player)) = some c2) :
    pushesOntoGoal d level = (pushes d level && c2.isGoal) := by
  unfold pushesOntoGoal
  simp [hc2]

theorem pushesOntoGoal_false {d : Direction} {level : Level} (h : pushes d level = false) :
    pushesOntoGoal d level = false := by
  unfold pushesOntoGoal
  cases cellAt level.map (move d (move d level.player)) <;> simp [h]

/-- In a level with one box and one goal cell, a call of `update` returns true exactly
when it pushes the box onto the goal. -/
theorem oneBox_step {d : Direction} {level : Level} {r : Bool × Level}
    (hinv : GoalsInv level) (hone : OneBoxOneGoal level) (h : update d level = some r) :
    r.1 = true ↔ pushesOntoGoal d level = true := by
  have hinv2 := goalsInv_update hinv h
  have hone2 := oneBox_update hone h
  rcases update_cases h with ⟨hp, hr, _⟩ |
    ⟨hp, c, c2, m4, hc, _, hb, hc2, _, hb2, hr, h1, h2, h3, h4⟩
  · simp [hr, pushesOntoGoal_false hp]
  · rw [pushesOntoGoal_eq hc2, hp]
    subst hr
    obtain ⟨hg, _⟩ := hinv2
    obtain ⟨hbx, hgl⟩ := hone2
    simp only [] at hg hbx hgl
    simp only [decide_eq_true_eq, Bool.true_and]
    rw [hg]
    have s1 := countCells_split (fun c => c.isGoal) (fun c => c.hasBox) m4
    have s2 := countCells_split (fun c => c.hasBox) (fun c => c.isGoal) m4
    have n1 := countCells_nonneg (fun c => c.isGoal && !c.hasBox) m4
    have n2 := countCells_nonneg (fun c => c.hasBox && !c.isGoal) m4
    have comm : countCells (fun c => c.hasBox && c.isGoal) m4
        = countCells (fun c => c.isGoal && c.hasBox) m4 := by
      congr 1
      funext c
      exact Bool.and_comm _ _
    constructor
    · intro h0
      by_contra hng
      have : 1 ≤ countCells (fun c => c.hasBox && !c.isGoal) m4 :=
        countCells_pos h2 (by simp [boxOn, hng])
      simp only [] at s1 s2
      omega
    · intro hgo
      have : 1 ≤ countCells (fun c => c.isGoal && c.hasBox) m4 :=
        countCells_pos h2 (by simp [boxOn, hgo])
      simp only [] at s1 s2
      omega


/-- C10. For every level `loadLevel` returns and every sequence of in-bounds calls of
`update` on it, `goals` is the number of cells with `isGoal` set and `hasBox` clear, and
a cell has `onGoal` set exactly when it has both `isGoal` and `hasBox`. -/
theorem goals_counter_invariant (p0 : Point) (defn : List Char) (level0 : Level)
    (hload : loadLevel p0 defn = some level0) (ds : List Direction) (level : Level)
    (hrun : runUpdates ds level0 = some level) :
    level.goals = countCells (fun c => c.isGoal && !c.hasBox) level.map
      ∧ ∀ p c, cellAt level.map p = some c →
          (c.onGoal = true ↔ (c.isGoal = true ∧ c.hasBox = true)) :=
  goalsInv_run (goalsInv_load hload) hrun

theorem goals_counter_invariant_witness :
    levelOneGoalDone.goals = countCells (fun c => c.isGoal && !c.hasBox) levelOneGoalDone.map
      ∧ ∀ p c, cellAt levelOneGoalDone.map p = some c →
          (c.onGoal = true ↔ (c.isGoal = true ∧ c.hasBox = true)) :=
  goals_counter_invariant ⟨0, 0⟩ defOneGoal levelOneGoal (by decide) [Direction.RIGHT]
    levelOneGoalDone (by decide)

/-- In a level with one box and one goal cell, what a call of `update` that returns true
has done to the level, and when it returns true, read off the levels before and after
the call. -/
theorem oneBox_step_state {d : Direction} {level : Level} {r : Bool × Level}
    (hinv : GoalsInv level) (hone : OneBoxOneGoal level) (h : update d level = some r) :
    (r.1 = true ↔ ∃ q c c1, cellAt level.map q = some c ∧ c.hasBox = false
        ∧ cellAt r.2.map q = some c1 ∧ c1.hasBox = true ∧ c1.isGoal = true)
    ∧ (r.1 = true ↔ (level.goals ≠ 0 ∧ r.2.goals = 0))
    ∧ (r.1 = true → r.2.player = move d level.player
        ∧ ∃ c0 c1, cellAt r.2.map (move d level.player) = some c0 ∧ c0.hasBox = false
          ∧ cellAt r.2.map (move d (move d level.player)) = some c1
          ∧ c1.isGoal = true ∧ c1.hasBox = true ∧ c1.onGoal = true) := by
  have hstep := oneBox_step hinv hone h
  rcases update_cases h with ⟨hp, hr, hl⟩ |
    ⟨hp, c, c2, m4, hc, _, hb, hc2, _, hb2, hr, h1, h2, h3, h4⟩
  · have hmap : r.2.map = level.map := by
      rcases hl with hl | hl <;> rw [hl]
    have hgoals : r.2.goals = level.goals := by
      rcases hl with hl | hl <;> rw [hl]
    refine ⟨?_, ?_, ?_⟩
    · simp only [hr, Bool.false_eq_true, false_iff]
      rintro ⟨q, c, c1, hq, hcb, hq1, hc1b, _⟩
      rw [hmap, hq] at hq1
      cases hq1
      rw [hcb] at hc1b
      cases hc1b
    · simp only [hr, Bool.false_eq_true, false_iff, hgoals]
      intro hh
      exact hh.1 hh.2
    · intro ht
      rw [hr] at ht
      cases ht
  · rw [pushesOntoGoal_eq hc2, hp, Bool.true_and] at hstep
    subst hr
    simp only [] at hstep ⊢
    have hne : move d (move d level.player) ≠ move d level.player := move_ne d _
    refine ⟨?_, ?_, ?_⟩
    · rw [hstep]
      constructor
      · intro hgo
        exact ⟨_, c2, boxOn c2, hc2, hb2, h2, by simp [boxOn], by simpa [boxOn] using hgo⟩
      · rintro ⟨q, cq, c1, hq, hcb, hq1, hc1b, hc1g⟩
        by_cases e1 : q = move d level.player
        · subst e1
          rw [h1] at hq1
          cases hq1
          simp [boxOff] at hc1b
        · by_cases e2 : q = move d (move d level.player)
          · subst e2
            rw [h2] at hq1
            cases hq1
            simpa [boxOn] using hc1g
          · rw [h3 q e1 e2, hq] at hq1
            cases hq1
            rw [hcb] at hc1b
            cases hc1b
    · constructor
      · intro ht
        have hg0 := of_decide_eq_true ht
        refine ⟨?_, hg0⟩
        have hgo := hstep.mp ht
        have hpos : 1 ≤ countCells (fun c => c.isGoal && !c.hasBox) level.map :=
          countCells_pos hc2 (by simp [hgo, hb2])
        rw [hinv.1]
        omega
      · intro hh
        exact decide_eq_true hh.2
    · intro ht
      have hgo := hstep.mp ht
      refine ⟨trivial, boxOff c, boxOn c2, h1, by simp [boxOff], h2, ?_, ?_, ?_⟩
      · simpa [boxOn] using hgo
      · simp [boxOn]
      · simp [boxOn, hgo]

/-- C3. For every level `loadLevel` returns from a definition string with exactly one
goal-bearing character and exactly one box character, every sequence of in-bounds calls
of `update` on it, and every further in-bounds call: the call returns true exactly when
it pushes the box onto the goal cell, and every other call returns false. The push is
pinned from both sides of the call: on the level before it (the player's destination
holds the box and the free non-wall cell beyond it is the goal), and on the levels before
and after it (some cell without a box before is a goal cell with the box after). A true
result is the level becoming complete: `goals` was not 0 before the call and is 0 after
it; then the player stands on the box's old cell, which holds no box, and the cell beyond
is the goal with `hasBox` and `onGoal` set. (Whether the box starts on the goal does not
matter for this.) -/
theorem one_goal_completion (p0 : Point) (defn : List Char) (level0 : Level)
    (hload : loadLevel p0 defn = some level0)
    (hg : goalBearing defn = 1) (hb : boxChars defn = 1)
    (ds : List Direction) (level : Level) (hrun : runUpdates ds level0 = some level)
    (d : Direction) (r : Bool × Level) (hu : update d level = some r) :
    (r.1 = true ↔ pushesOntoGoal d level = true)
    ∧ (r.1 = true ↔ ∃ q c c1, cellAt level.map q = some c ∧ c.hasBox = false
        ∧ cellAt r.2.map q = some c1 ∧ c1.hasBox = true ∧ c1.isGoal = true)
    ∧ (r.1 = true ↔ (level.goals ≠ 0 ∧ r.2.goals = 0))
    ∧ (r.1 = true → r.2.player = move d level.player
        ∧ ∃ c0 c1, cellAt r.2.map (move d level.player) = some c0 ∧ c0.hasBox = false
          ∧ cellAt r.2.map (move d (move d level.player)) = some c1
          ∧ c1.isGoal = true ∧ c1.hasBox = true ∧ c1.onGoal = true) :=
  ⟨oneBox_step (goalsInv_run (goalsInv_load hload) hrun)
      (oneBox_run (oneBox_load hload hg hb) hrun) hu,
    oneBox_step_state (goalsInv_run (goalsInv_load hload) hrun)
      (oneBox_run (oneBox_load hload hg hb) hrun) hu⟩

theorem one_goal_completion_witness :
    (true = true ↔ pushesOntoGoal Direction.RIGHT levelOneGoal = true)
    ∧ (true = true ↔ ∃ q c c1, cellAt levelOneGoal.map q = some c ∧ c.hasBox = false
        ∧ cellAt levelOneGoalDone.map q = some c1 ∧ c1.hasBox = true ∧ c1.isGoal = true)
    ∧ (true = true ↔ (levelOneGoal.goals ≠ 0 ∧ levelOneGoalDone.goals = 0))
    ∧ (true = true → levelOneGoalDone.player = move Direction.RIGHT levelOneGoal.player
        ∧ ∃ c0 c1, cellAt levelOneGoalDone.map (move Direction.RIGHT levelOneGoal.player)
              = some c0 ∧ c0.hasBox = false
          ∧ cellAt levelOneGoalDone.map
              (move Direction.RIGHT (move Direction.RIGHT levelOneGoal.player)) = some c1
          ∧ c1.isGoal = true ∧ c1.hasBox = true ∧ c1.onGoal = true) :=
  one_goal_completion ⟨0, 0⟩ defOneGoal levelOneGoal (by decide) (by decide) (by decide)
    [Direction.UP] levelOneGoal (by decide) Direction.RIGHT (true, levelOneGoalDone)
    (by decide)

end Divergence

namespace Slither

theorem trim_eq_take (n : Nat) (body : List Point) : trim n body = body.take n := by
  generalize hk : body.length = k
  induction k generalizing body with
  | zero =>
    have : body = [] := List.length_eq_zero.mp hk
    subst this
    unfold trim
    simp
  | succ k ih =>
    unfold trim
    by_cases hlt : n < body.length
    · rw [if_pos hlt, ih body.dropLast (by simp [hk])]
      rw [List.dropLast_eq_take, List.take_take]
      congr 1
      omega
    · rw [if_neg hlt]
      exact (List.take_of_length_le (by omega)).symm

theorem selfHit_iff (body : List Point) (h0 : Point) (hh : body.head? = some h0) :
    selfHit body = true ↔ ∃ i, 2 ≤ i ∧ body[i]? = some h0 := by
  cases body with
  | nil => simp at hh
  | cons b0 t =>
    simp only [List.head?_cons, Option.some.injEq] at hh
    subst hh
    cases t with
    | nil =>
      simp only [selfHit]
      constructor
      · intro h; cases h
      · rintro ⟨i, hi, h⟩
        obtain ⟨j, rfl⟩ : ∃ j, i = j + 2 := ⟨i - 2, by omega⟩
        simp at h
    | cons b1 rest =>
      simp only [selfHit, List.any_eq_true, decide_eq_true_eq]
      constructor
      · rintro ⟨p, hp, hx, hy⟩
        obtain ⟨j, hj⟩ := List.getElem?_of_mem hp
        refine ⟨j + 2, by omega, ?_⟩
        have : p = b0 := by
          cases p; cases b0; simp_all
        simp [hj, this]
      · rintro ⟨i, hi, h⟩
        obtain ⟨j, rfl⟩ : ∃ j, i = j + 2 := ⟨i - 2, by omega⟩
        simp only [List.getElem?_cons_succ] at h
        exact ⟨b0, List.getElem?_mem h, rfl, rfl⟩

theorem newHead_wrap (d : Direction) (x y : Int) (hx : 0 ≤ x ∧ x < 20)
    (hy : 0 ≤ y ∧ y < 20) :
    newHead d ⟨x, y⟩ = ⟨(x + (delta d).1) % 20, (y + (delta d).2) % 20⟩ := by
  obtain ⟨hx0, hx1⟩ := hx
  obtain ⟨hy0, hy1⟩ := hy
  cases d <;> simp only [newHead, delta, B_WIDTH, B_HEIGHT] <;> split_ifs <;>
    simp only [Point.mk.injEq] <;> omega

/-- The four edges of the board: a step off an edge lands on the opposite edge. -/
theorem newHead_edges (x y : Int) :
    newHead Direction.LEFT ⟨0, y⟩ = ⟨19, y⟩ ∧ newHead Direction.RIGHT ⟨19, y⟩ = ⟨0, y⟩
      ∧ (0 ≤ x → x < 20 → newHead Direction.UP ⟨x, 0⟩ = ⟨x, 19⟩)
      ∧ (0 ≤ x → x < 20 → newHead Direction.DOWN ⟨x, 19⟩ = ⟨x, 0⟩) := by
  refine ⟨?_, ?_, ?_, ?_⟩
  · simp [newHead, B_WIDTH]
  · simp [newHead, B_WIDTH]
  · intro h0 h1
    dsimp only [newHead, B_WIDTH, B_HEIGHT]
    split_ifs <;> first | omega | simp
  · intro h0 h1
    dsimp only [newHead, B_WIDTH, B_HEIGHT]
    split_ifs <;> first | omega | simp

theorem feed_body_head (s : Snake) (head : Point) (r1 r2 : Nat) (hne : s.body ≠ []) :
    (feed s head r1 r2).body.head? = some head := by
  unfold feed
  by_cases hf : head.x = s.food.x ∧ head.y = s.food.y
  · simp [hf]
  · simp only [hf, if_false]
    cases hb : s.body with
    | nil => exact absurd hb hne
    | cons a t => simp [List.dropLast]

theorem point_eq_iff (p q : Point) : p = q ↔ (p.x = q.x ∧ p.y = q.y) := by
  cases p; cases q; simp

theorem feed_eat (s : Snake) (head : Point) (r1 r2 : Nat) (hf : head = s.food) :
    feed s head r1 r2
      = { s with
          length := s.length + 1
          body := head :: s.body
          food := ⟨(r1 : Int) % B_WIDTH, (r2 : Int) % B_HEIGHT⟩ } := by
  unfold feed
  rw [if_pos ((point_eq_iff _ _).mp hf)]

theorem feed_miss (s : Snake) (head : Point) (r1 r2 : Nat) (hf : head ≠ s.food) :
    feed s head r1 r2 = { s with body := (head :: s.body).dropLast } := by
  unfold feed
  rw [if_neg (fun h => hf ((point_eq_iff _ _).mpr h))]

theorem update_eq (s : Snake) (r1 r2 : Nat) (head : Point) (rest : List Point)
    (hb : s.body = head :: rest) :
    update s r1 r2
      = some (if selfHit (feed s (newHead s.direction head) r1 r2).body = true then
          { feed s (newHead s.direction head) r1 r2 with
            length := 3
            body := (feed s (newHead s.direction head) r1 r2).body.take 3 }
        else feed s (newHead s.direction head) r1 r2) := by
  unfold update
  rw [hb]
  simp only [trim_eq_take]
  split_ifs <;> rfl

/-- C9. For a head `(x, y)` on the board and each direction with step `(dx, dy)`, `update`
returns and the new `body[0]` is `((x + dx) mod 20, (y + dy) mod 20)`, a point on the
board. -/
theorem update_wraps (s : Snake) (r1 r2 : Nat) (x y : Int) (rest : List Point)
    (hb : s.body = ⟨x, y⟩ :: rest) (hx : 0 ≤ x ∧ x < 20) (hy : 0 ≤ y ∧ y < 20) :
    ∃ s' : Snake, update s r1 r2 = some s'
      ∧ s'.body.head?
          = some ⟨(x + (delta s.direction).1) % 20, (y + (delta s.direction).2) % 20⟩
      ∧ 0 ≤ (x + (delta s.direction).1) % 20 ∧ (x + (delta s.direction).1) % 20 < 20
      ∧ 0 ≤ (y + (delta s.direction).2) % 20 ∧ (y + (delta s.direction).2) % 20 < 20 := by
  refine ⟨_, update_eq s r1 r2 _ rest hb, ?_, by omega, by omega, by omega, by omega⟩
  have hne : s.body ≠ [] := by rw [hb]; exact List.cons_ne_nil _ _
  have hh := feed_body_head s (newHead s.direction ⟨x, y⟩) r1 r2 hne
  rw [newHead_wrap s.direction x y hx hy] at hh ⊢
  split_ifs
  · simp only []
    cases hfb : (feed s ⟨(x + (delta s.direction).1) % 20, (y + (delta s.direction).2) % 20⟩
        r1 r2).body with
    | nil => rw [hfb] at hh; simp at hh
    | cons a t => rw [hfb] at hh; simpa using hh
  · exact hh

theorem update_wraps_witness :
    ∃ s' : Snake, update snakeAtEdge 0 0 = some s'
      ∧ s'.body.head? = some ⟨19, 10⟩
      ∧ (0 : Int) ≤ 19 ∧ (19 : Int) < 20 ∧ (0 : Int) ≤ 10 ∧ (10 : Int) < 20 :=
  update_wraps snakeAtEdge 0 0 0 10 [⟨1, 10⟩, ⟨2, 10⟩] rfl (by decide) (by decide)

/-- C8, as stated, fails: the coiled snake of length 4 moves its head onto `(0, 0)`, the
cell of its tail, so the body with the new head prepended has the head again at index 4;
the tail is removed before the scan, and after the tick `length` and `body.size()` are
still 4. -/
theorem update_self_collision_counterexample :
    newHead snakeCoiled.direction ⟨1, 0⟩ = ⟨0, 0⟩
      ∧ ((⟨0, 0⟩ : Point) :: snakeCoiled.body)[4]? = some ⟨0, 0⟩
      ∧ ∃ s' : Snake, update snakeCoiled 0 0 = some s' ∧ s'.length = 4
          ∧ s'.body.length = 4 :=
  ⟨by decide, by decide,
    { snakeCoiled with body := [⟨0, 0⟩, ⟨1, 0⟩, ⟨1, 1⟩, ⟨0, 1⟩] }, by decide, rfl, rfl⟩

/-- C8, amended. If, in the body after the new head has been prepended and the tail
removed (the tail stays when the food is eaten), some element at index 2 or later equals
the new head, then after the tick `length` and `body.size()` are both exactly 3. -/
theorem update_self_collision (s : Snake) (r1 r2 : Nat) (head : Point) (rest : List Point)
    (hb : s.body = head :: rest)
    (hhit : ∃ i, 2 ≤ i ∧
      (feed s (newHead s.direction head) r1 r2).body[i]? = some (newHead s.direction head)) :
    ∃ s' : Snake, update s r1 r2 = some s' ∧ s'.length = 3 ∧ s'.body.length = 3 := by
  have hne : s.body ≠ [] := by rw [hb]; exact List.cons_ne_nil _ _
  have hh := feed_body_head s (newHead s.direction head) r1 r2 hne
  have hs := (selfHit_iff _ _ hh).mpr hhit
  refine ⟨_, update_eq s r1 r2 head rest hb, ?_⟩
  rw [if_pos hs]
  refine ⟨rfl, ?_⟩
  simp only [List.length_take]
  obtain ⟨i, hi, hget⟩ := hhit
  have : i < (feed s (newHead s.direction head) r1 r2).body.length := by
    rcases List.getElem?_eq_some.mp hget with ⟨h, _⟩
    exact h
  omega

theorem update_self_collision_witness :
    ∃ s' : Snake, update snakeHook 0 0 = some s' ∧ s'.length = 3 ∧ s'.body.length = 3 :=
  update_self_collision snakeHook 0 0 ⟨1, 0⟩ [⟨1, 1⟩, ⟨0, 1⟩, ⟨0, 0⟩, ⟨0, 19⟩] rfl
    ⟨4, by decide, by decide⟩

/-- C7, as stated, fails in both halves when the snake also hits itself on the tick: the
snake of length 4 turned back onto its neck ends the tick with `length` and `body.size()`
3, whether its new head misses the food (they should have stayed 4) or is on the food
(they should have become 5). -/
theorem update_food_length_counterexample :
    (newHead snakeReversed.direction ⟨10, 10⟩ ≠ snakeReversed.food
      ∧ snakeReversed.length = 4 ∧ snakeReversed.body.length = 4
      ∧ ∃ s' : Snake, update snakeReversed 0 0 = some s' ∧ s'.length = 3
          ∧ s'.body.length = 3)
    ∧ (newHead snakeReversedOnFood.direction ⟨10, 10⟩ = snakeReversedOnFood.food
      ∧ snakeReversedOnFood.length = 4 ∧ snakeReversedOnFood.body.length = 4
      ∧ ∃ s' : Snake, update snakeReversedOnFood 3 4 = some s' ∧ s'.length = 3
          ∧ s'.body.length = 3) :=
  ⟨⟨by decide, rfl, rfl, _, update_eq snakeReversed 0 0 ⟨10, 10⟩ _ rfl, by decide, by decide⟩,
    ⟨by decide, rfl, rfl, _, update_eq snakeReversedOnFood 3 4 ⟨10, 10⟩ _ rfl, by decide,
      by decide⟩⟩

/-- C7, amended. `update` returns on every non-empty body. If the new head is on the
food, the food is moved to `(r1 mod 20, r2 mod 20)`, a point of the board. If moreover no
element at index 2 or later of the body after the food step (head prepended, tail removed
unless the food is eaten) equals the new head, then: when the new head is on the food,
`length` and `body.size()` are each exactly one more than before; when it is not, both are
unchanged. -/
theorem update_food_length (s : Snake) (r1 r2 : Nat) (head : Point) (rest : List Point)
    (hb : s.body = head :: rest) :
    ∃ s' : Snake, update s r1 r2 = some s'
      ∧ (newHead s.direction head = s.food →
          s'.food = ⟨(r1 : Int) % 20, (r2 : Int) % 20⟩
            ∧ 0 ≤ s'.food.x ∧ s'.food.x < 20 ∧ 0 ≤ s'.food.y ∧ s'.food.y < 20)
      ∧ ((∀ i, 2 ≤ i → (feed s (newHead s.direction head) r1 r2).body[i]?
              ≠ some (newHead s.direction head)) →
          (newHead s.direction head = s.food →
              s'.length = s.length + 1 ∧ s'.body.length = s.body.length + 1)
            ∧ (newHead s.direction head ≠ s.food →
              s'.length = s.length ∧ s'.body.length = s.body.length)) := by
  have hne : s.body ≠ [] := by rw [hb]; exact List.cons_ne_nil _ _
  have hh := feed_body_head s (newHead s.direction head) r1 r2 hne
  refine ⟨_, update_eq s r1 r2 head rest hb, ?_, ?_⟩
  · intro hf
    have hfood : (feed s (newHead s.direction head) r1 r2).food
        = ⟨(r1 : Int) % 20, (r2 : Int) % 20⟩ := by
      rw [feed_eat s _ r1 r2 hf]
      rfl
    have hfood2 : (if selfHit (feed s (newHead s.direction head) r1 r2).body = true then
          { feed s (newHead s.direction head) r1 r2 with
            length := 3
            body := (feed s (newHead s.direction head) r1 r2).body.take 3 }
        else feed s (newHead s.direction head) r1 r2).food
        = ⟨(r1 : Int) % 20, (r2 : Int) % 20⟩ := by
      split_ifs
      · exact hfood
      · exact hfood
    rw [hfood2]
    refine ⟨rfl, ?_, ?_, ?_, ?_⟩ <;> simp only [] <;> omega
  · intro hclear
    have hs : ¬ selfHit (feed s (newHead s.direction head) r1 r2).body = true := by
      intro h
      obtain ⟨i, hi, hget⟩ := (selfHit_iff _ _ hh).mp h
      exact hclear i hi hget
    rw [if_neg hs]
    constructor
    · intro hf
      rw [feed_eat s _ r1 r2 hf]
      exact ⟨rfl, by simp⟩
    · intro hf
      rw [feed_miss s _ r1 r2 hf]
      refine ⟨rfl, ?_⟩
      simp only [List.length_dropLast, List.length_cons]
      omega

theorem update_food_length_witness :
    ∃ s' : Snake, update snakeBeforeFood 47 113 = some s'
      ∧ (newHead snakeBeforeFood.direction ⟨10, 10⟩ = snakeBeforeFood.food →
          s'.food = ⟨((47 : Nat) : Int) % 20, ((113 : Nat) : Int) % 20⟩
            ∧ 0 ≤ s'.food.x ∧ s'.food.x < 20 ∧ 0 ≤ s'.food.y ∧ s'.food.y < 20)
      ∧ ((∀ i, 2 ≤ i →
            (feed snakeBeforeFood (newHead snakeBeforeFood.direction ⟨10, 10⟩) 47 113).body[i]?
              ≠ some (newHead snakeBeforeFood.direction ⟨10, 10⟩)) →
          (newHead snakeBeforeFood.direction ⟨10, 10⟩ = snakeBeforeFood.food →
              s'.length = snakeBeforeFood.length + 1
                ∧ s'.body.length = snakeBeforeFood.body.length + 1)
            ∧ (newHead snakeBeforeFood.direction ⟨10, 10⟩ ≠ snakeBeforeFood.food →
              s'.length = snakeBeforeFood.length
                ∧ s'.body.length = snakeBeforeFood.body.length)) :=
  update_food_length snakeBeforeFood 47 113 ⟨10, 10⟩ [⟨9, 10⟩, ⟨8, 10⟩, ⟨7, 10⟩] rfl

end Slither

namespace Slither

end Slither

namespace Divergence

theorem enclosedCheck_sound (map : List (List Cell)) (h : enclosedCheck map = true) :
    Enclosed map := by
  intro p c hc hw d
  have hp := cellAt_some_nonneg hc
  have hc' := hc
  unfold cellAt at hc'
  simp only [hp, and_self, if_true] at hc'
  cases hrow : map[p.y.toNat]? with
  | none => simp [hrow] at hc'
  | some row =>
    simp only [hrow] at hc'
    have hy : p.y.toNat < map.length := (List.getElem?_eq_some.mp hrow).1
    have hx : p.x.toNat < row.length := (List.getElem?_eq_some.mp hc').1
    unfold enclosedCheck at h
    rw [List.all_eq_true] at h
    have h1 := h p.y.toNat (List.mem_range.mpr hy)
    rw [List.all_eq_true] at h1
    have h2 := h1 p.x.toNat (List.mem_range.mpr (by simpa [hrow] using hx))
    have hpe : (⟨(p.x.toNat : Int), (p.y.toNat : Int)⟩ : Point) = p := by
      rw [Int.toNat_of_nonneg hp.2, Int.toNat_of_nonneg hp.1]
    rw [hpe, hc] at h2
    simp only [Bool.or_eq_true, decide_eq_true_eq, List.all_eq_true] at h2
    rcases h2 with h2 | h2
    · exact absurd h2 hw
    · apply h2
      cases d <;> simp

/-- A call of `update` keeps `width`, `height`, the shape of the map and the type of
every cell. -/
theorem update_types {d : Direction} {level : Level} {r : Bool × Level}
    (h : update d level = some r) :
    r.2.width = level.width ∧ r.2.height = level.height
      ∧ ∀ q, (cellAt r.2.map q).map Cell.type = (cellAt level.map q).map Cell.type := by
  rcases update_cases h with ⟨_, _, hr | hr⟩ |
    ⟨_, c, c2, m4, hc, _, _, hc2, _, _, hr, h1, h2, h3, _⟩
  · rw [hr]; exact ⟨rfl, rfl, fun _ => rfl⟩
  · rw [hr]; exact ⟨rfl, rfl, fun _ => rfl⟩
  · subst hr
    refine ⟨rfl, rfl, ?_⟩
    intro q
    simp only []
    by_cases e1 : q = move d level.player
    · subst e1
      rw [h1, hc]
      rfl
    · by_cases e2 : q = move d (move d level.player)
      · subst e2
        rw [h2, hc2]
        rfl
      · rw [h3 q e1 e2]

theorem types_isSome {m1 m2 : List (List Cell)}
    (h : ∀ q, (cellAt m1 q).map Cell.type = (cellAt m2 q).map Cell.type) (q : Point) :
    (cellAt m1 q).isSome = (cellAt m2 q).isSome := by
  have := h q
  cases h1 : cellAt m1 q <;> cases h2 : cellAt m2 q <;> simp [h1, h2] at this ⊢

theorem enclosed_of_types {m1 m2 : List (List Cell)}
    (h : ∀ q, (cellAt m1 q).map Cell.type = (cellAt m2 q).map Cell.type)
    (he : Enclosed m2) : Enclosed m1 := by
  intro p c hc hw d
  rw [types_isSome h]
  have := h p
  rw [hc] at this
  cases h2 : cellAt m2 p with
  | none => simp [h2] at this
  | some c2 =>
    simp only [h2, Option.map_some', Option.some.injEq] at this
    exact he p c2 h2 (by rw [← this]; exact hw) d

theorem bounded_of_types {l1 l2 : Level}
    (hw : l1.width = l2.width) (hh : l1.height = l2.height)
    (h : ∀ q, (cellAt l1.map q).map Cell.type = (cellAt l2.map q).map Cell.type)
    (hb : Bounded l2) : Bounded l1 := by
  intro p h1 h2
  rw [types_isSome h] at h1 h2
  rw [hw, hh]
  exact hb p h1 h2

theorem cellAt_isSome_iff (m : List (List Cell)) (p : Point) :
    (cellAt m p).isSome = true ↔
      (0 ≤ p.y ∧ 0 ≤ p.x ∧ ∃ row, m[p.y.toNat]? = some row ∧ p.x.toNat < row.length) := by
  unfold cellAt
  by_cases hp : 0 ≤ p.y ∧ 0 ≤ p.x
  · simp only [hp, and_self, if_true, true_and]
    cases hrow : m[p.y.toNat]? with
    | none => simp
    | some row =>
      simp only [Option.some.injEq, exists_eq_left']
      rw [Option.isSome_iff_exists]
      constructor
      · rintro ⟨c, hc⟩
        exact (List.getElem?_eq_some.mp hc).1
      · intro hx
        exact ⟨row[p.x.toNat], List.getElem?_eq_getElem hx⟩
  · simp only [hp, if_false, Option.isSome_none, Bool.false_eq_true, false_iff]
    intro h
    exact hp ⟨h.1, h.2.1⟩

theorem length_le_maxLen (rs : List (List Char)) (j : Nat) (row : List Char)
    (h : rs[j]? = some row) : (row.length : Int) ≤ maxLen rs := by
  induction rs generalizing j with
  | nil => simp at h
  | cons r rs ih =>
    cases j with
    | zero =>
      simp only [List.getElem?_cons_zero, Option.some.injEq] at h
      subst h
      simp [maxLen]
    | succ j =>
      simp only [List.getElem?_cons_succ] at h
      have := ih j h
      simp only [maxLen]
      exact le_trans this (le_max_right _ _)

/-- The level `loadLevel` builds is bounded: a cell with a cell below it is in a row
other than the last, and `width` is the largest length of those rows. -/
theorem bounded_load {p0 : Point} {defn : List Char} {level : Level}
    (h : loadLevel p0 defn = some level) : Bounded level := by
  rw [loadLevel_eq] at h
  split_ifs at h with hw
  cases h
  intro p h1 h2
  simp only [] at h1 h2 ⊢
  rw [cellAt_isSome_iff] at h1 h2
  obtain ⟨hy, hx, row, hrow, hxl⟩ := h1
  obtain ⟨_, _, row2, hrow2, _⟩ := h2
  simp only [move] at hrow2
  have hlen2 : (p.y + 1).toNat < (rows defn).length := by
    have := (List.getElem?_eq_some.mp hrow2).1
    simpa using this
  have hsucc : (p.y + 1).toNat = p.y.toNat + 1 := by omega
  rw [List.getElem?_map] at hrow
  cases hr : (rows defn)[p.y.toNat]? with
  | none => simp [hr] at hrow
  | some r =>
    simp only [hr, Option.map_some', Option.some.injEq] at hrow
    have hdl : (rows defn).dropLast[p.y.toNat]? = some r := by
      rw [List.getElem?_dropLast, if_pos (by omega), hr]
    have hle := length_le_maxLen _ _ _ hdl
    have hrl : row.length = r.length := by rw [← hrow]; simp
    refine ⟨hx, ?_, hy, ?_⟩
    · omega
    · omega

theorem mem_rowPlayers (y : Int) (row : List Char) :
    ∀ (x : Int) (p : Point), p ∈ rowPlayers y x row →
      p.y = y ∧ ∃ i : Nat, p.x = x + (i : Int) ∧ ∃ ch, row[i]? = some ch
        ∧ (ch = '@' ∨ ch = '&') := by
  induction row with
  | nil =>
    intro x p hp
    simp [rowPlayers] at hp
  | cons c row ih =>
    intro x p hp
    simp only [rowPlayers] at hp
    by_cases hc : c = '@' ∨ c = '&'
    · rw [if_pos hc] at hp
      rcases List.mem_cons.mp hp with h | h
      · subst h
        exact ⟨rfl, 0, by simp, c, by simp, hc⟩
      · obtain ⟨h1, i, h2, ch, h3, h4⟩ := ih (x + 1) p h
        exact ⟨h1, i + 1, by rw [h2]; push_cast; ring, ch, by simpa using h3, h4⟩
    · rw [if_neg hc] at hp
      obtain ⟨h1, i, h2, ch, h3, h4⟩ := ih (x + 1) p hp
      exact ⟨h1, i + 1, by rw [h2]; push_cast; ring, ch, by simpa using h3, h4⟩

theorem mem_playerCells (rs : List (List Char)) :
    ∀ (y : Int) (p : Point), p ∈ playerCells y rs →
      ∃ (j i : Nat) (row : List Char) (ch : Char), p.y = y + (j : Int) ∧ p.x = (i : Int)
        ∧ rs[j]? = some row ∧ row[i]? = some ch ∧ (ch = '@' ∨ ch = '&') := by
  induction rs with
  | nil =>
    intro y p hp
    simp [playerCells] at hp
  | cons r rs ih =>
    intro y p hp
    simp only [playerCells, List.mem_append] at hp
    rcases hp with h | h
    · obtain ⟨h1, i, h2, ch, h3, h4⟩ := mem_rowPlayers y r 0 p h
      exact ⟨0, i, r, ch, by simp [h1], by simpa using h2, by simp, h3, h4⟩
    · obtain ⟨j, i, row, ch, h1, h2, h3, h4, h5⟩ := ih (y + 1) p h
      exact ⟨j + 1, i, row, ch, by rw [h1]; push_cast; ring, h2, by simpa using h3, h4, h5⟩

theorem rowPlayers_ne_nil (y : Int) (row : List Char) (ch : Char) (hm : ch ∈ row)
    (hc : ch = '@' ∨ ch = '&') : ∀ x : Int, rowPlayers y x row ≠ [] := by
  induction row with
  | nil => simp at hm
  | cons c row ih =>
    intro x
    simp only [rowPlayers]
    by_cases hcc : c = '@' ∨ c = '&'
    · rw [if_pos hcc]; exact List.cons_ne_nil _ _
    · rw [if_neg hcc]
      rcases List.mem_cons.mp hm with h | h
      · subst h; exact absurd hc hcc
      · exact ih h (x + 1)

theorem playerCells_ne_nil (rs : List (List Char)) (row : List Char) (ch : Char)
    (hr : row ∈ rs) (hm : ch ∈ row) (hc : ch = '@' ∨ ch = '&') :
    ∀ y : Int, playerCells y rs ≠ [] := by
  induction rs with
  | nil => simp at hr
  | cons r rs ih =>
    intro y
    simp only [playerCells]
    rcases List.mem_cons.mp hr with h | h
    · subst h
      intro hnil
      exact rowPlayers_ne_nil y row ch hm hc 0 (List.append_eq_nil.mp hnil).1
    · intro hnil
      exact ih h (y + 1) (List.append_eq_nil.mp hnil).2

/-- The level `loadLevel` builds from a definition with a player character has its
player on the cell of the last such character: a floor cell without a box. -/
theorem playerOk_load {p0 : Point} {defn : List Char} {level : Level}
    (h : loadLevel p0 defn = some level) (hpl : ∃ ch ∈ defn, ch = '@' ∨ ch = '&') :
    PlayerOk level := by
  rw [loadLevel_eq] at h
  split_ifs at h with hw
  cases h
  obtain ⟨ch, hmem, hch⟩ := hpl
  have hne : ch ≠ '|' := by
    rcases hch with h | h <;> subst h <;> decide
  have hfl : ch ∈ (rows defn).flatten := by
    rw [rows_flatten]
    exact List.mem_filter.mpr ⟨hmem, by simpa using hne⟩
  obtain ⟨row, hrow, hcr⟩ := List.mem_flatten.mp hfl
  have hnn := playerCells_ne_nil (rows defn) row ch hrow hcr hch 0
  obtain ⟨p, hlast⟩ : ∃ p, (playerCells 0 (rows defn)).getLast? = some p := by
    cases hl : (playerCells 0 (rows defn)).getLast? with
    | none => exact absurd (List.getLast?_eq_none_iff.mp hl) hnn
    | some p => exact ⟨p, rfl⟩
  obtain ⟨j, i, r, c, hy, hx, hr, hi, hc⟩ :=
    mem_playerCells (rows defn) 0 p (List.mem_of_getLast?_eq_some hlast)
  refine ⟨charCell c, ?_, ?_, ?_⟩
  · simp only [hlast, Option.getD_some]
    have hp : p = ⟨(i : Int), (j : Int)⟩ := by
      cases p
      simp only [Point.mk.injEq]
      simp only [] at hy hx
      exact ⟨hx, by omega⟩
    rw [hp]
    unfold cellAt
    simp [hr, hi]
  · rcases hc with h | h <;> subst h <;> decide
  · rcases hc with h | h <;> subst h <;> decide

/-- In an enclosed level whose player stands on a non-wall cell, a call of `update` reads
and writes inside the map, and leaves the player on a non-wall cell without a box. -/
theorem update_safe {d : Direction} {level : Level}
    (he : Enclosed level.map) (hp : PlayerOk level) :
    ∃ r : Bool × Level, update d level = some r ∧ PlayerOk r.2 := by
  obtain ⟨c0, hc0, hw0, _⟩ := hp
  have h1 := he _ c0 hc0 hw0 d
  obtain ⟨c, hc⟩ := Option.isSome_iff_exists.mp h1
  by_cases hw : c.type = WALL
  · exact ⟨_, update_wall hc hw, c0, hc0, hw0, by assumption⟩
  · cases hb : c.hasBox with
    | false =>
      exact ⟨_, update_step hc hw hb, c, hc, hw, hb⟩
    | true =>
      have h2 := he _ c hc hw d
      obtain ⟨c2, hc2⟩ := Option.isSome_iff_exists.mp h2
      by_cases hrej : c2.type = WALL ∨ c2.hasBox = true
      · exact ⟨_, update_blocked hc hb hc2 hrej, c0, hc0, hw0, by assumption⟩
      · have hw2 : c2.type ≠ WALL := fun h5 => hrej (Or.inl h5)
        have hb2 : c2.hasBox = false := by
          cases h6 : c2.hasBox
          · rfl
          · exact absurd (Or.inr h6) hrej
        obtain ⟨m4, hu, h3, _, _, _⟩ := update_push hc hw hb hc2 hw2 hb2
        refine ⟨_, hu, boxOff c, h3, ?_, ?_⟩
        · simpa [boxOff] using hw
        · simp [boxOff]

theorem runUpdates_safe (ds : List Direction) :
    ∀ level : Level, Enclosed level.map → Bounded level → PlayerOk level →
      ∃ level1 : Level, runUpdates ds level = some level1
        ∧ Enclosed level1.map ∧ Bounded level1 ∧ PlayerOk level1 := by
  induction ds with
  | nil =>
    intro level he hb hp
    exact ⟨level, rfl, he, hb, hp⟩
  | cons d ds ih =>
    intro level he hb hp
    obtain ⟨r, hu, hp1⟩ := @update_safe d level he hp
    obtain ⟨hw, hh, ht⟩ := update_types hu
    obtain ⟨level1, hr, h1, h2, h3⟩ :=
      ih r.2 (enclosed_of_types ht he) (bounded_of_types hw hh ht hb) hp1
    refine ⟨level1, ?_, h1, h2, h3⟩
    simp only [runUpdates, hu]
    exact hr

/-- C12. For every level `loadLevel` returns from a definition that contains a player
character and whose map is enclosed (every non-wall cell has its four orthogonal
neighbours in the map), and for every sequence of directions: every call of `update`, and
of `moveBox` inside it, reads and writes only cells of the map (the sequence of calls
returns), and after the calls the player coordinate satisfies `0 <= x < width` and
`0 <= y < height` and indexes an existing non-wall cell that holds no box. -/
theorem coordinates_stay_in_grid (p0 : Point) (defn : List Char) (level0 : Level)
    (hload : loadLevel p0 defn = some level0)
    (hplayer : ∃ ch ∈ defn, ch = '@' ∨ ch = '&')
    (hencl : Enclosed level0.map) (ds : List Direction) :
    ∃ level : Level, runUpdates ds level0 = some level
      ∧ 0 ≤ level.player.x ∧ level.player.x < level.width
      ∧ 0 ≤ level.player.y ∧ level.player.y < level.height
      ∧ ∃ c, cellAt level.map level.player = some c ∧ c.type ≠ WALL ∧ c.hasBox = false := by
  obtain ⟨level, hr, he, hb, hp⟩ :=
    runUpdates_safe ds level0 hencl (bounded_load hload) (playerOk_load hload hplayer)
  obtain ⟨c, hc, hw, hbx⟩ := hp
  have h1 : (cellAt level.map level.player).isSome = true := by rw [hc]; rfl
  obtain ⟨b1, b2, b3, b4⟩ := hb level.player h1 (he _ c hc hw Direction.DOWN)
  exact ⟨level, hr, b1, b2, b3, b4, c, hc, hw, hbx⟩

theorem coordinates_stay_in_grid_witness :
    ∃ level : Level,
      runUpdates [Direction.UP, Direction.RIGHT, Direction.RIGHT, Direction.LEFT] levelOneGoal
          = some level
      ∧ 0 ≤ level.player.x ∧ level.player.x < level.width
      ∧ 0 ≤ level.player.y ∧ level.player.y < level.height
      ∧ ∃ c, cellAt level.map level.player = some c ∧ c.type ≠ WALL ∧ c.hasBox = false :=
  coordinates_stay_in_grid ⟨0, 0⟩ defOneGoal levelOneGoal (by decide)
    ⟨'@', by decide, Or.inl rfl⟩ (enclosedCheck_sound _ (by decide))
    [Direction.UP, Direction.RIGHT, Direction.RIGHT, Direction.LEFT]

end Divergence
